import Mathlib

/-!
Verification of the two-pass assembler for the 32-bit virtual machine ISA
(`src/assembler/assembler.py`).

The Python source is shallowly embedded: Python `int` is modelled as `Int`
(Python integers are unbounded), Python strings as `List Char`, and the
mutable `Assembler` object as an explicit record `AsmState` threaded through
every operation.  Python bit operations on integers are rendered
arithmetically, using the identities that hold for Python's infinite
two's-complement integers:
  `x & (2^k - 1) = x % 2^k`  (Lean `%` on `Int` is Euclidean, which agrees
   with Python `%` for positive moduli),
  `x >> k = x / 2^k`         (Lean `/` on `Int` is Euclidean, which agrees
   with Python floor division for positive divisors),
  `a | b = a + b`            when the set bits of `a` and `b` are disjoint
   (each field is masked to its width before being shifted into place),
  `x & ~(2^k - 1) = (x / 2^k) * 2^k`.
File inclusion is modelled against an abstract file system
`Str → Option (List Str)` (file name to list of lines) plus an abstract
`abspath` function, since real disk I/O is outside the embedding.
Python `while` loops that append a computable number of padding elements are
rendered in closed form (the iteration count is given explicitly) so that all
definitions reduce inside the kernel.
-/

/-- Python strings are modelled as lists of characters. -/
abbrev Str := List Char

/-- Whitespace test used to model Python `str.strip` / `str.split()`. -/
def isWs (c : Char) : Bool := c = ' ' || c = '\t' || c = '\r' || c = '\n'

/-- Model of Python `str.strip`: drop whitespace at both ends. -/
def trim (s : Str) : Str :=
  ((s.dropWhile isWs).reverse.dropWhile isWs).reverse

/-- Split a list at every occurrence of the separator character, keeping empty
chunks, like Python `s.split(',')` on a nonempty string. -/
def splitOnChar (sep : Char) (s : Str) : List Str :=
  match s with
  | [] => [[]]
  | c :: rest =>
    let r := splitOnChar sep rest
    if c = sep then [] :: r
    else match r with
      | [] => [[c]]
      | chunk :: more => (c :: chunk) :: more

/-- Model of Python `s.split(',')` as used on operand strings: Python returns
`['']` for the empty string, but every call site guards with `if operands_str:`
first, so the empty case yields no operands. -/
def splitCommas (s : Str) : List Str :=
  if s = [] then [] else splitOnChar ',' s

/-- Model of Python `s.split()` (split on whitespace runs, no empty chunks). -/
def splitWs (s : Str) : List Str :=
  match s with
  | [] => []
  | c :: rest =>
    let r := splitWs rest
    if isWs c then r
    else match r, rest.head? with
      | chunk :: more, some c2 =>
          if isWs c2 then [c] :: chunk :: more else (c :: chunk) :: more
      | chunk :: more, none => (c :: chunk) :: more
      | [], _ => [[c]]

/-- Association-list lookup modelling Python `dict` read access. -/
def lookupS {α : Type} : List (Str × α) → Str → Option α
  | [], _ => none
  | (k, v) :: rest, s => if s = k then some v else lookupS rest s

/-- Association-list update modelling Python `dict` write access: replace the
existing binding or append a new one. -/
def updateS {α : Type} : List (Str × α) → Str → α → List (Str × α)
  | [], s, v => [(s, v)]
  | (k, w) :: rest, s, v =>
    if s = k then (k, v) :: rest else (k, w) :: updateS rest s v

/-- Membership test for the include stack (Python `set` of paths). -/
def memS (s : Str) : List Str → Bool
  | [] => false
  | t :: rest => s = t || memS s rest

/-- Removal from the include stack (Python `set.remove`; paths are inserted at
most once, so erasing the first occurrence is faithful). -/
def removeS (s : Str) : List Str → List Str
  | [] => []
  | t :: rest => if s = t then rest else t :: removeS s rest

/-- Numeric value of a digit character in bases up to 16, or `none`. -/
def digitVal (c : Char) : Option Nat :=
  if '0' ≤ c ∧ c ≤ '9' then some (c.toNat - ('0').toNat)
  else if 'a' ≤ c ∧ c ≤ 'f' then some (c.toNat - ('a').toNat + 10)
  else if 'A' ≤ c ∧ c ≤ 'F' then some (c.toNat - ('A').toNat + 10)
  else none

/-- Accumulating digit parser: `parseBaseAcc b acc cs` reads the digits `cs`
(most significant first) in base `b` on top of the accumulator. -/
def parseBaseAcc (b : Nat) (acc : Nat) : Str → Option Nat
  | [] => some acc
  | c :: cs =>
    match digitVal c with
    | some d => if d < b then parseBaseAcc b (acc * b + d) cs else none
    | none => none

/-- Model of Python `int(s, b)` on an unsigned digit string: at least one
digit, all digits valid for the base. -/
def parseBase (b : Nat) (s : Str) : Option Nat :=
  match s with
  | [] => none
  | _ => parseBaseAcc b 0 s

/-- Model of Python `int(s)` (base 10) with an optional sign. -/
def parseDec (s : Str) : Option Int :=
  match s with
  | '-' :: rest => (parseBase 10 rest).map (fun n => -(n : Int))
  | '+' :: rest => (parseBase 10 rest).map (fun n => (n : Int))
  | _ => (parseBase 10 s).map (fun n => (n : Int))

/-- First character of a Python identifier: `[A-Za-z_.]`. -/
def identStart (c : Char) : Bool :=
  ('A' ≤ c && c ≤ 'Z') || ('a' ≤ c && c ≤ 'z') || c = '_' || c = '.'

/-- Later characters of a Python identifier: `[A-Za-z0-9_.]`. -/
def identChar (c : Char) : Bool :=
  identStart c || ('0' ≤ c && c ≤ '9')

/-- Model of the regex `^[A-Za-z_.][A-Za-z0-9_.]*$` used for symbol names. -/
def isIdent (s : Str) : Bool :=
  match s with
  | [] => false
  | c :: rest => identStart c && rest.all identChar

/-- Decimal digits of a number, least significant first, with explicit fuel so
that the definition reduces inside the kernel (`fuel ≥ n` is always enough). -/
def natDigitsRevAux : Nat → Nat → List Char
  | 0, _ => []
  | _ + 1, 0 => []
  | fuel + 1, n => Nat.digitChar (n % 10) :: natDigitsRevAux fuel (n / 10)

/-- Decimal digits of a number, least significant first (`[]` for zero). -/
def natDigitsRev (n : Nat) : List Char := natDigitsRevAux n n

/-- Canonical decimal numeral of a number (no sign, no leading zeros). -/
def decStr (n : Nat) : Str :=
  if n = 0 then ['0'] else (natDigitsRev n).reverse

/-! ## Constants of the ISA (src/assembler/assembler.py, top of file) -/

/-- Addressing mode IMM (value in instruction). -/
def modeIMM : Int := 0
/-- Addressing mode REG (value in register). -/
def modeREG : Int := 1
/-- Addressing mode MEM (direct address). -/
def modeMEM : Int := 2
/-- Addressing mode REGM (`[Reg]`). -/
def modeREGM : Int := 3
/-- Addressing mode IDX (`[Reg + Offset]`). -/
def modeIDX : Int := 4
/-- Addressing mode STK (`[SP + Offset]`). -/
def modeSTK : Int := 5
/-- Addressing mode BAS (`[BP + Offset]`). -/
def modeBAS : Int := 6

/-- The modes whose `reg2` and `immediate` fields hold one 16-bit immediate:
`[AddressingMode.IMM, AddressingMode.MEM, AddressingMode.STK, AddressingMode.BAS]`. -/
def immModes : List Int := [modeIMM, modeMEM, modeSTK, modeBAS]

/-- Code segment base address (`CODE_SEGMENT_BASE = 0x0000`). -/
def CODE_SEGMENT_BASE : Int := 0x0000
/-- Data segment base address (`DATA_SEGMENT_BASE = 0x4000`). -/
def DATA_SEGMENT_BASE : Int := 0x4000

/-- Register-name table (`Assembler.__init__`, `self.registers`). -/
def registersTable : List (Str × Int) :=
  [(("R0").data, 0), (("ACC").data, 0), (("R0_ACC").data, 0),
   (("R1").data, 1), (("BP").data, 1), (("R1_BP").data, 1),
   (("R2").data, 2), (("SP").data, 2), (("R2_SP").data, 2),
   (("R3").data, 3), (("PC").data, 3), (("R3_PC").data, 3),
   (("R4").data, 4), (("SR").data, 4), (("R4_SR").data, 4),
   (("R5").data, 5), (("R6").data, 6), (("R7").data, 7),
   (("R8").data, 8), (("R9").data, 9),
   (("R10").data, 10), (("R11").data, 11), (("R12").data, 12),
   (("R13").data, 13), (("R14").data, 14),
   (("R15").data, 15), (("LR").data, 15), (("R15_LR").data, 15)]

/-- Opcode table (`class Opcode`, exposed as `self.opcodes`). -/
def opcodesTable : List (Str × Int) :=
  [(("NOP").data, 0x00), (("LOAD").data, 0x01), (("STORE").data, 0x02),
   (("MOVE").data, 0x03), (("LOADB").data, 0x04), (("STOREB").data, 0x05),
   (("LOADW").data, 0x06), (("STOREW").data, 0x07), (("LEA").data, 0x08),
   (("ADD").data, 0x20), (("SUB").data, 0x21), (("MUL").data, 0x22),
   (("DIV").data, 0x23), (("MOD").data, 0x24), (("INC").data, 0x25),
   (("DEC").data, 0x26), (("NEG").data, 0x27), (("CMP").data, 0x28),
   (("ADDC").data, 0x2A), (("SUBC").data, 0x2B),
   (("AND").data, 0x40), (("OR").data, 0x41), (("XOR").data, 0x42),
   (("NOT").data, 0x43), (("SHL").data, 0x44), (("SHR").data, 0x45),
   (("SAR").data, 0x46), (("ROL").data, 0x47), (("ROR").data, 0x48),
   (("TEST").data, 0x49),
   (("JMP").data, 0x60), (("JZ").data, 0x61), (("JNZ").data, 0x62),
   (("JN").data, 0x63), (("JP").data, 0x64), (("JO").data, 0x65),
   (("JC").data, 0x66), (("JBE").data, 0x67), (("JA").data, 0x68),
   (("CALL").data, 0x6A), (("RET").data, 0x6B), (("SYSCALL").data, 0x6C),
   (("LOOP").data, 0x6F),
   (("PUSH").data, 0x80), (("POP").data, 0x81), (("PUSHF").data, 0x82),
   (("POPF").data, 0x83), (("PUSHA").data, 0x84), (("POPA").data, 0x85),
   (("ENTER").data, 0x86), (("LEAVE").data, 0x87),
   (("HALT").data, 0xA0), (("INT").data, 0xA1), (("CLI").data, 0xA2),
   (("STI").data, 0xA3), (("IRET").data, 0xA4), (("IN").data, 0xA5),
   (("OUT").data, 0xA6), (("CPUID").data, 0xA7), (("RESET").data, 0xA8),
   (("DEBUG").data, 0xA9),
   (("ALLOC").data, 0xC0), (("FREE").data, 0xC1), (("MEMCPY").data, 0xC2),
   (("MEMSET").data, 0xC3), (("PROTECT").data, 0xC4)]

/-! ## Encoder and disassembler field extraction -/

/-- Model of `Assembler.encode_instruction`.  The Python body masks `opcode`,
`mode` and `reg1`; for `mode ∈ {IMM, MEM, STK, BAS}` it overwrites `reg2` with
the high nibble `(immediate >> 12) & 0xF` of the 16-bit immediate, otherwise
it masks `reg2`; `immediate` is masked to 12 bits in both branches; finally it
composes `(opcode<<24)|(mode<<20)|(reg1<<16)|(reg2<<12)|immediate`, which is a
sum because the masked fields occupy disjoint bit ranges. -/
def encode_instruction (opcode mode reg1 reg2 immediate : Int) : Int :=
  let opcode := opcode % 256
  let mode := mode % 16
  let reg1 := reg1 % 16
  let reg2 := if mode ∈ immModes then (immediate / 4096) % 16 else reg2 % 16
  let immediate := immediate % 4096
  opcode * 16777216 + mode * 1048576 + reg1 * 65536 + reg2 * 4096 + immediate

/-- Opcode field extraction, `(instruction >> 24) & 0xFF` (disassembler and
`resolve_references`). -/
def decodeOpcode (w : Int) : Int := (w / 16777216) % 256

/-- Mode field extraction, `(instruction >> 20) & 0x0F`. -/
def decodeMode (w : Int) : Int := (w / 1048576) % 16

/-- Reg1 field extraction, `(instruction >> 16) & 0x0F`. -/
def decodeReg1 (w : Int) : Int := (w / 65536) % 16

/-- Reg2 field extraction, `(instruction >> 12) & 0x0F`. -/
def decodeReg2 (w : Int) : Int := (w / 4096) % 16

/-- Raw 12-bit immediate field, `instruction & 0xFFF`. -/
def decodeImm12 (w : Int) : Int := w % 4096

/-- Immediate recovered by the disassembler: for modes in `immModes` the
16-bit recombination `(reg2 << 12) | immediate` (a sum of disjoint fields),
otherwise the raw 12-bit field. -/
def decodeImm (w : Int) : Int :=
  if decodeMode w ∈ immModes then decodeReg2 w * 4096 + decodeImm12 w
  else decodeImm12 w

/-! ## Assembler state -/

/-- Parsed operand `(addressing_mode, reg1, reg2, immediate)` as returned by
`Assembler.parse_operand`. -/
abbrev Operand := Int × Int × Int × Int

/-- Mutable state of the `Assembler` object.  `labels` is the symbol table,
`instructions` the code-word vector, `data` the data byte vector,
`unresolved` the pending-fixup list `(code index, symbol, kind)`. -/
structure AsmState where
  labels : List (Str × Int)
  instructions : List Int
  data : List Int
  currentSection : Str
  address : Int
  dataAddress : Int
  unresolved : List (Nat × Str × Str)
  errors : List Str
  currentFile : Str
  currentLine : Nat
  includedFiles : List Str
deriving Repr, DecidableEq

/-- External collaborators of the include driver: the file system (name to
list of lines) and `os.path.abspath`. -/
structure Ctx where
  fs : Str → Option (List Str)
  abspath : Str → Str

/-- Decimal rendering of a line number for diagnostics. -/
def decRepr (n : Nat) : Str := decStr n

/-- Model of `Assembler.error`: append a diagnostic prefixed with
`file:line: `. -/
def addError (σ : AsmState) (msg : Str) : AsmState :=
  { σ with errors :=
      σ.errors ++ [σ.currentFile ++ (":").data ++ decRepr σ.currentLine ++ (": ").data ++ msg] }

/-- Fresh state as set up by `Assembler.__init__` / the reset at the top of
`Assembler.assemble` (file name and include-stack seed added by `assemble`). -/
def initState : AsmState :=
  { labels := [], instructions := [], data := [],
    currentSection := (".text").data,
    address := CODE_SEGMENT_BASE, dataAddress := DATA_SEGMENT_BASE,
    unresolved := [], errors := [],
    currentFile := [], currentLine := 0, includedFiles := [] }

/-! ## Token-level parsers -/

/-- Register-token test used inside `parse_operand`:
`expr in self.registers or (expr.startswith('R') and expr[1:].isdigit())`.
The dict membership test is case-sensitive. -/
def isRegToken (s : Str) : Bool :=
  (lookupS registersTable s).isSome ||
    (s.head? = some 'R' && s.tail ≠ [] && (s.tail).all Char.isDigit)

/-- Model of `Assembler.parse_register`: upper-case the token, look it up in
the register table, else accept `R<number>` with number in `0..15`, else
record `Invalid register` and return 0. -/
def parse_register (token : Str) (σ : AsmState) : Int × AsmState :=
  let tok := token.map Char.toUpper
  match lookupS registersTable tok with
  | some v => (v, σ)
  | none =>
    if tok.head? = some 'R' && tok.tail ≠ [] && (tok.tail).all Char.isDigit then
      match parseBase 10 tok.tail with
      | some n => if n ≤ 15 then ((n : Int), σ)
                  else (0, addError σ ((("Invalid register: ").data) ++ tok))
      | none => (0, addError σ ((("Invalid register: ").data) ++ tok))
    else (0, addError σ ((("Invalid register: ").data) ++ tok))

/-- Hex-digit test for Python `int(c, 16)` digits. -/
def isHexDigit (c : Char) : Bool := (digitVal c).isSome

/-- Binary-digit test. -/
def isBinDigit (c : Char) : Bool := c = '0' || c = '1'

/-- Octal-digit test. -/
def isOctDigit (c : Char) : Bool := '0' ≤ c && c ≤ '7'

/-- Model of `Assembler.parse_immediate`: an identifier is looked up in the
symbol table (returning the placeholder 0 when unresolved and
`allow_unresolved` is set, else a diagnostic); otherwise the token is parsed
as `0x…` hex, `0b…` binary, leading-`0` octal, or decimal, with a diagnostic
on a malformed numeral. -/
def parse_immediate (token : Str) (allowUnresolved : Bool) (σ : AsmState) :
    Int × AsmState :=
  if isIdent token then
    match lookupS σ.labels token with
    | some v => (v, σ)
    | none =>
      if allowUnresolved then (0, σ)
      else (0, addError σ ((("Undefined symbol: ").data) ++ token))
  else if token.take 2 = ("0x").data ∨ token.take 2 = ("0X").data then
    match parseBase 16 (token.drop 2) with
    | some n => ((n : Int), σ)
    | none => (0, addError σ ((("Invalid numeric value: ").data) ++ token))
  else if token.take 2 = ("0b").data ∨ token.take 2 = ("0B").data then
    match parseBase 2 (token.drop 2) with
    | some n => ((n : Int), σ)
    | none => (0, addError σ ((("Invalid numeric value: ").data) ++ token))
  else if token.head? = some '0' ∧ token.length > 1 then
    match parseBase 8 token with
    | some n => ((n : Int), σ)
    | none => (0, addError σ ((("Invalid numeric value: ").data) ++ token))
  else
    match parseDec token with
    | some v => (v, σ)
    | none => (0, addError σ ((("Invalid numeric value: ").data) ++ token))

/-! ## Operand parser -/

/-- Model of the regex match `re.match(r'\[(.*)\]', s)`: the string must start
with `[` and contain a later `]`; the greedy group is everything between the
first `[` and the last `]` (trailing characters are ignored, as `re.match`
does not anchor the end). -/
def bracketInner (s : Str) : Option Str :=
  match s with
  | '[' :: rest =>
    match (rest.reverse).dropWhile (fun c => c != ']') with
    | [] => none
    | _ :: before => some before.reverse
  | _ => none

/-- Split at the first occurrence of a character (assumed present), modelling
the lazy regexes `(.*?)\s*\+\s*(.*)` and `(.*?)\s*\-\s*(.*)` up to the
`strip()` the caller applies to both parts. -/
def splitAtFirst (sep : Char) : Str → Str × Str
  | [] => ([], [])
  | c :: rest =>
    if c = sep then ([], rest)
    else
      let p := splitAtFirst sep rest
      (c :: p.1, p.2)

/-- Numeric-offset test in the `[sym±k]` branches:
`offset.isdigit() or (offset.startswith('0x') and all(c in hexdigits))`. -/
def offsetNumeric (o : Str) : Bool :=
  (o ≠ [] && o.all Char.isDigit) ||
    (o.take 2 = ("0x").data && (o.drop 2).all isHexDigit)

/-- Model of `Assembler.parse_operand`.  Returns the operand tuple and the
updated state (diagnostics, and pending fixups queued by the `[sym±k]`
branches at the current length of the code vector). -/
def parse_operand (operandStr : Str) (σ : AsmState) : Operand × AsmState :=
  let s := trim operandStr
  if s.head? = some '#' then
    let p := parse_immediate (s.drop 1) true σ
    ((modeIMM, 0, 0, p.1), p.2)
  else
    match bracketInner s with
    | some inner =>
      let expr := trim inner
      if isRegToken expr then
        let p := parse_register expr σ
        if p.1 = 2 then ((modeSTK, 0, 0, 0), p.2)
        else if p.1 = 1 then ((modeBAS, 0, 0, 0), p.2)
        else ((modeREGM, p.1, 0, 0), p.2)
      else if expr.contains '+' then
        let sp := splitAtFirst '+' expr
        let base := trim sp.1
        let offset := trim sp.2
        if isRegToken base then
          let pr := parse_register base σ
          let pi := parse_immediate offset true pr.2
          if pr.1 = 2 then ((modeSTK, 0, 0, pi.1), pi.2)
          else if pr.1 = 1 then ((modeBAS, 0, 0, pi.1), pi.2)
          else ((modeIDX, pr.1, 0, pi.1), pi.2)
        else
          if offsetNumeric offset then
            let pi := parse_immediate offset false σ
            match lookupS pi.2.labels base with
            | some bv => ((modeMEM, 0, 0, bv + pi.1), pi.2)
            | none =>
              let σ2 := { pi.2 with unresolved :=
                pi.2.unresolved ++ [(pi.2.instructions.length, base, ("imm").data)] }
              ((modeMEM, 0, 0, 0 + pi.1), σ2)
          else
            ((modeMEM, 0, 0, 0),
             addError σ ((("Complex expressions not supported: ").data) ++ expr))
      else if expr.contains '-' then
        let sp := splitAtFirst '-' expr
        let base := trim sp.1
        let offset := trim sp.2
        if isRegToken base then
          let pr := parse_register base σ
          let pi := parse_immediate offset true pr.2
          let negImm := (0 - pi.1) % 4096
          if pr.1 = 2 then ((modeSTK, 0, 0, negImm), pi.2)
          else if pr.1 = 1 then ((modeBAS, 0, 0, negImm), pi.2)
          else ((modeIDX, pr.1, 0, negImm), pi.2)
        else
          if offsetNumeric offset then
            let pi := parse_immediate offset false σ
            match lookupS pi.2.labels base with
            | some bv => ((modeMEM, 0, 0, bv - pi.1), pi.2)
            | none =>
              let σ2 := { pi.2 with unresolved :=
                pi.2.unresolved ++ [(pi.2.instructions.length, base, ("imm").data)] }
              ((modeMEM, 0, 0, 0 - pi.1), σ2)
          else
            ((modeMEM, 0, 0, 0),
             addError σ ((("Complex expressions not supported: ").data) ++ expr))
      else
        let p := parse_immediate expr true σ
        ((modeMEM, 0, 0, p.1), p.2)
    | none =>
      if isRegToken s then
        let p := parse_register s σ
        ((modeREG, p.1, 0, 0), p.2)
      else
        let p := parse_immediate s true σ
        ((modeIMM, 0, 0, p.1), p.2)

/-! ## Instruction format validator (`class InstructionFormat`) -/

/-- One side of a two-operand mode constraint: a single mode (Python `int`)
or a list of allowed modes. -/
inductive OpSpec where
  | one (m : Int)
  | many (ms : List Int)
deriving Repr, DecidableEq

/-- Shape of the `allowed_modes` entry of a format row: `[]`, a list of mode
ints (single operand), a one-element list holding a `(dest, src)` pair, or a
one-element list holding a three-mode tuple (`MEMCPY`/`MEMSET`). -/
inductive FmtModes where
  | noneM
  | listM (ms : List Int)
  | pairM (d s : OpSpec)
  | tripleM (a b c : Int)
deriving Repr, DecidableEq

/-- Jump/call operand modes `[IMM, REG, REGM, IDX]`. -/
def jumpModes : List Int := [modeIMM, modeREG, modeREGM, modeIDX]
/-- Load-source modes `[IMM, MEM, REGM, IDX, STK, BAS]`. -/
def loadSrcModes : List Int := [modeIMM, modeMEM, modeREGM, modeIDX, modeSTK, modeBAS]
/-- Memory-form source modes `[MEM, REGM, IDX, STK, BAS]` (LEA/STORE rows). -/
def memSrcModes : List Int := [modeMEM, modeREGM, modeIDX, modeSTK, modeBAS]
/-- Arithmetic source modes `[REG, IMM, MEM, REGM, IDX, STK, BAS]`. -/
def arithSrcModes : List Int :=
  [modeREG, modeIMM, modeMEM, modeREGM, modeIDX, modeSTK, modeBAS]
/-- Shift/ALLOC/PROTECT source modes `[REG, IMM]`. -/
def regImmModes : List Int := [modeREG, modeIMM]

set_option maxHeartbeats 1000000 in
/-- The static format table `InstructionFormat.formats`: number of operands
(`-1` meaning 0 or 1) and the addressing-mode constraint, row for row. -/
def formatsTable : List (Str × (Int × FmtModes)) :=
  [(("NOP").data, (0, .noneM)), (("PUSHF").data, (0, .noneM)),
   (("POPF").data, (0, .noneM)), (("PUSHA").data, (0, .noneM)),
   (("POPA").data, (0, .noneM)), (("LEAVE").data, (0, .noneM)),
   (("HALT").data, (0, .noneM)), (("CLI").data, (0, .noneM)),
   (("STI").data, (0, .noneM)), (("IRET").data, (0, .noneM)),
   (("CPUID").data, (0, .noneM)), (("RESET").data, (0, .noneM)),
   (("DEBUG").data, (0, .noneM)),
   (("INC").data, (1, .listM [modeREG])), (("DEC").data, (1, .listM [modeREG])),
   (("NEG").data, (1, .listM [modeREG])), (("NOT").data, (1, .listM [modeREG])),
   (("POP").data, (1, .listM [modeREG])),
   (("RET").data, (-1, .listM [modeIMM])),
   (("PUSH").data, (1, .listM [modeREG, modeIMM])),
   (("JMP").data, (1, .listM jumpModes)), (("JZ").data, (1, .listM jumpModes)),
   (("JNZ").data, (1, .listM jumpModes)), (("JN").data, (1, .listM jumpModes)),
   (("JP").data, (1, .listM jumpModes)), (("JO").data, (1, .listM jumpModes)),
   (("JC").data, (1, .listM jumpModes)), (("JBE").data, (1, .listM jumpModes)),
   (("JA").data, (1, .listM jumpModes)), (("CALL").data, (1, .listM jumpModes)),
   (("ENTER").data, (1, .listM [modeIMM])), (("INT").data, (1, .listM [modeIMM])),
   (("SYSCALL").data, (1, .listM [modeIMM])),
   (("IN").data, (2, .pairM (.one modeREG) (.one modeIMM))),
   (("OUT").data, (2, .pairM (.one modeIMM) (.many regImmModes))),
   (("LOOP").data, (2, .pairM (.one modeREG) (.one modeIMM))),
   (("MOVE").data, (2, .pairM (.one modeREG) (.one modeREG))),
   (("LOAD").data, (2, .pairM (.one modeREG) (.many loadSrcModes))),
   (("LOADB").data, (2, .pairM (.one modeREG) (.many loadSrcModes))),
   (("LOADW").data, (2, .pairM (.one modeREG) (.many loadSrcModes))),
   (("LEA").data, (2, .pairM (.one modeREG) (.many memSrcModes))),
   (("ADD").data, (2, .pairM (.one modeREG) (.many arithSrcModes))),
   (("SUB").data, (2, .pairM (.one modeREG) (.many arithSrcModes))),
   (("MUL").data, (2, .pairM (.one modeREG) (.many arithSrcModes))),
   (("DIV").data, (2, .pairM (.one modeREG) (.many arithSrcModes))),
   (("MOD").data, (2, .pairM (.one modeREG) (.many arithSrcModes))),
   (("AND").data, (2, .pairM (.one modeREG) (.many arithSrcModes))),
   (("OR").data, (2, .pairM (.one modeREG) (.many arithSrcModes))),
   (("XOR").data, (2, .pairM (.one modeREG) (.many arithSrcModes))),
   (("SHL").data, (2, .pairM (.one modeREG) (.many regImmModes))),
   (("SHR").data, (2, .pairM (.one modeREG) (.many regImmModes))),
   (("SAR").data, (2, .pairM (.one modeREG) (.many regImmModes))),
   (("ROL").data, (2, .pairM (.one modeREG) (.many regImmModes))),
   (("ROR").data, (2, .pairM (.one modeREG) (.many regImmModes))),
   (("TEST").data, (2, .pairM (.one modeREG) (.many arithSrcModes))),
   (("CMP").data, (2, .pairM (.one modeREG) (.many arithSrcModes))),
   (("ADDC").data, (2, .pairM (.one modeREG) (.many arithSrcModes))),
   (("SUBC").data, (2, .pairM (.one modeREG) (.many arithSrcModes))),
   (("STORE").data, (2, .pairM (.one modeREG) (.many memSrcModes))),
   (("STOREB").data, (2, .pairM (.one modeREG) (.many memSrcModes))),
   (("STOREW").data, (2, .pairM (.one modeREG) (.many memSrcModes))),
   (("ALLOC").data, (2, .pairM (.one modeREG) (.many regImmModes))),
   (("FREE").data, (1, .listM [modeREG])),
   (("MEMCPY").data, (3, .tripleM modeREG modeREG modeIMM)),
   (("MEMSET").data, (3, .tripleM modeREG modeREG modeIMM)),
   (("PROTECT").data, (2, .pairM (.one modeREG) (.many regImmModes)))]

/-- Name of an addressing mode (`AddressingMode.name` in diagnostics). -/
def modeName (m : Int) : Str :=
  if m = 0 then ("IMM").data
  else if m = 1 then ("REG").data
  else if m = 2 then ("MEM").data
  else if m = 3 then ("REGM").data
  else if m = 4 then ("IDX").data
  else if m = 5 then ("STK").data
  else if m = 6 then ("BAS").data
  else []

/-- Model of `", ".join(mode.name for mode in modes)`. -/
def joinModeNames : List Int → Str
  | [] => []
  | [m] => modeName m
  | m :: rest => modeName m ++ (", ").data ++ joinModeNames rest

/-- Model of `InstructionFormat.validate`: returns `(valid, error_message)`.
The branch structure mirrors the Python `isinstance` dispatch; shapes with no
matching branch (for example the three-operand rows) fall through to
`(True, "")`. -/
def validate (op : Str) (operands : List Operand) (addrModes : List Int) :
    Bool × Str :=
  match lookupS formatsTable op with
  | none => (false, (("Unknown opcode: ").data) ++ op)
  | some (n, fm) =>
    if n = -1 then
      if operands.length > 1 then
        (false, op ++ ((" expects at most 1 operand, got ").data) ++
          decRepr operands.length)
      else (true, [])
    else if (operands.length : Int) ≠ n then
      (false, op ++ ((" expects ").data) ++ decRepr n.toNat ++
        ((" operand(s), got ").data) ++ decRepr operands.length)
    else if n = 0 then (true, [])
    else
      match fm with
      | .noneM => (true, [])
      | .listM ms =>
        if n = 1 then
          let m0 := addrModes.headD 0
          if m0 ∈ ms then (true, [])
          else (false, op ++ ((" expects operand with addressing mode(s): ").data) ++
            joinModeNames ms ++ ((", got ").data) ++ modeName m0)
        else (true, [])
      | .pairM d s =>
        if n = 2 then
          let m0 := addrModes.headD 0
          let m1 := (addrModes.drop 1).headD 0
          match d with
          | .many ds =>
            if m0 ∉ ds then
              (false, op ++ ((" expects first operand with addressing mode(s): ").data) ++
                joinModeNames ds ++ ((", got ").data) ++ modeName m0)
            else
              match s with
              | .many ss =>
                if m1 ∉ ss then
                  (false, op ++ ((" expects second operand with addressing mode(s): ").data) ++
                    joinModeNames ss ++ ((", got ").data) ++ modeName m1)
                else (true, [])
              | .one sm =>
                if m1 ≠ sm then
                  (false, op ++ ((" expects second operand with addressing mode: ").data) ++
                    modeName sm ++ ((", got ").data) ++ modeName m1)
                else (true, [])
          | .one dm =>
            if m0 ≠ dm then
              (false, op ++ ((" expects first operand with addressing mode: ").data) ++
                modeName dm ++ ((", got ").data) ++ modeName m0)
            else
              match s with
              | .many ss =>
                if m1 ∉ ss then
                  (false, op ++ ((" expects second operand with addressing mode(s): ").data) ++
                    joinModeNames ss ++ ((", got ").data) ++ modeName m1)
                else (true, [])
              | .one sm =>
                if m1 ≠ sm then
                  (false, op ++ ((" expects second operand with addressing mode: ").data) ++
                    modeName sm ++ ((", got ").data) ++ modeName m1)
                else (true, [])
        else (true, [])
      | .tripleM _ _ _ => (true, [])

/-! ## Instruction processing (`Assembler.process_instruction`) -/

/-- Lookup in the `for_source` map (Python dict keyed by operand position). -/
def lookupN : List (Nat × Str) → Nat → Option Str
  | [], _ => none
  | (k, v) :: rest, i => if i = k then some v else lookupN rest i

/-- Append an encoded word and advance the code cursor by 4
(`self.instructions.append(instruction); self.address += 4`). -/
def appendInstr (σ : AsmState) (w : Int) : AsmState :=
  { σ with instructions := σ.instructions ++ [w], address := σ.address + 4 }

/-- Queue a pending fixup at the current code length
(`self.unresolved_references.append((len(self.instructions), sym, 'imm'))`). -/
def queueRef (σ : AsmState) (sym : Str) : AsmState :=
  { σ with unresolved :=
      σ.unresolved ++ [(σ.instructions.length, sym, ("imm").data)] }

/-- Operand loop of `process_instruction`: strip each comma chunk, skip empty
chunks, parse the rest, and record `for_source` entries for IMM operands that
are undefined identifiers (after `lstrip('#')`) and MEM operands whose
bracketed expression is an undefined identifier.  The enumerate index `i`
counts all chunks, including skipped empty ones, exactly as in the source. -/
def opLoop : List Str → Nat → AsmState → List Operand → List Int →
    List (Nat × Str) → List Operand × List Int × List (Nat × Str) × AsmState
  | [], _, σ, ops, ms, fs => (ops, ms, fs, σ)
  | chunk :: rest, i, σ, ops, ms, fs =>
    let raw := trim chunk
    if raw = [] then opLoop rest (i + 1) σ ops ms fs
    else
      let p := parse_operand raw σ
      let m := p.1.1
      let fs2 :=
        if m = modeIMM ∧ isIdent (raw.dropWhile (fun c => c = '#')) then
          let symbol := raw.dropWhile (fun c => c = '#')
          if (lookupS p.2.labels symbol).isNone then fs ++ [(i, symbol)] else fs
        else if m = modeMEM then
          match bracketInner raw with
          | some inner =>
            let expr := trim inner
            if isIdent expr ∧ (lookupS p.2.labels expr).isNone then
              fs ++ [(i, expr)]
            else fs
          | none => fs
        else fs
      opLoop rest (i + 1) p.2 (ops ++ [p.1]) (ms ++ [m]) fs2

/-- Model of `Assembler.process_instruction` after the comma split: look up
the (upper-cased) mnemonic, parse the operands, validate the format, and
encode.  Two-operand instructions other than MOVE are encoded as
`encode(opcode, src.mode, dest.reg, src.reg, src.imm)` when the destination
is a register, and rejected otherwise; three or more operands are errors. -/
def process_instruction_ops (opcodeStr : Str) (rawOps : List Str)
    (σ : AsmState) : AsmState :=
  if opcodeStr = [] then σ
  else
    let opU := opcodeStr.map Char.toUpper
    match lookupS opcodesTable opU with
    | none => addError σ ((("Unknown opcode: ").data) ++ opU)
    | some opcode =>
      let L := opLoop rawOps 0 σ [] [] []
      let ops := L.1
      let ms := L.2.1
      let fs := L.2.2.1
      let σ1 := L.2.2.2
      let v := validate opU ops ms
      if ¬ v.1 then addError σ1 v.2
      else
        match ops with
        | [] => appendInstr σ1 (encode_instruction opcode modeIMM 0 0 0)
        | [(m, r1, r2, im)] =>
          let w := encode_instruction opcode m r1 r2 im
          let σ2 := match lookupN fs 0 with
            | some sym => queueRef σ1 sym
            | none => σ1
          appendInstr σ2 w
        | [(m1, r1, _, _), (m2, r2v, _, im)] =>
          if opU = ("MOVE").data then
            appendInstr σ1 (encode_instruction opcode modeREG r1 r2v 0)
          else if m1 = modeREG then
            let w := encode_instruction opcode m2 r1 r2v im
            let σ2 := match lookupN fs 1 with
              | some sym => queueRef σ1 sym
              | none => σ1
            appendInstr σ2 w
          else
            addError σ1 ((("Unsupported addressing mode for ").data) ++ opU)
        | [_, _, _] =>
          addError σ1 ((("Three-operand instruction ").data) ++ opU ++
            ((" not fully implemented").data))
        | _ =>
          addError σ1 ((("Too many operands for ").data) ++ opU)

/-- Model of `Assembler.process_instruction` (comma split included). -/
def process_instruction (opcodeStr operandsStr : Str) (σ : AsmState) :
    AsmState :=
  process_instruction_ops opcodeStr (splitCommas operandsStr) σ

/-! ## Directive helpers (`Assembler.process_directive`) -/

/-- Decimal rendering of an integer for diagnostics. -/
def intRepr (v : Int) : Str :=
  if v < 0 then '-' :: decStr (-v).toNat else decStr v.toNat

/-- Model of the regex `re.match(r'"([^"]*)"', args)`: an opening quote at the
start and a closing quote; the group is the text between them. -/
def quotedArg (args : Str) : Option Str :=
  match args with
  | '"' :: rest =>
    let p := rest.span (fun c => c != '"')
    if p.2.head? = some '"' then some p.1 else none
  | _ => none

/-- Byte value of one escape character (`\n \t \r \0 \\ \"`; any other
character escapes to itself). -/
def escByte (c : Char) : Int :=
  if c = 'n' then 10
  else if c = 't' then 9
  else if c = 'r' then 13
  else if c = '0' then 0
  else if c = '\\' then 92
  else if c = '"' then 34
  else (c.toNat : Int)

/-- Escape-processing loop of `.ascii`/`.asciiz`: a backslash followed by a
character emits one byte; a trailing lone backslash emits itself. -/
def escBytes : Str → List Int
  | [] => []
  | '\\' :: c :: rest => escByte c :: escBytes rest
  | c :: rest => (c.toNat : Int) :: escBytes rest

/-- Comma-separated value loop of `.byte` (each value masked to 8 bits). -/
def emitByteVals : List Str → AsmState → AsmState
  | [], σ => σ
  | vs :: rest, σ =>
    let v := trim vs
    if v = [] then emitByteVals rest σ
    else
      let p := parse_immediate v true σ
      emitByteVals rest
        { p.2 with data := p.2.data ++ [p.1 % 256],
                   dataAddress := p.2.dataAddress + 1 }

/-- Comma-separated value loop of `.word` (16-bit little endian). -/
def emitWordVals : List Str → AsmState → AsmState
  | [], σ => σ
  | vs :: rest, σ =>
    let v := trim vs
    if v = [] then emitWordVals rest σ
    else
      let p := parse_immediate v true σ
      emitWordVals rest
        { p.2 with data := p.2.data ++ [p.1 % 256, (p.1 / 256) % 256],
                   dataAddress := p.2.dataAddress + 2 }

/-- Comma-separated value loop of `.dword` (32-bit little endian). -/
def emitDwordVals : List Str → AsmState → AsmState
  | [], σ => σ
  | vs :: rest, σ =>
    let v := trim vs
    if v = [] then emitDwordVals rest σ
    else
      let p := parse_immediate v true σ
      emitDwordVals rest
        { p.2 with data := p.2.data ++
            [p.1 % 256, (p.1 / 256) % 256,
             (p.1 / 65536) % 256, (p.1 / 16777216) % 256],
                   dataAddress := p.2.dataAddress + 4 }

/-- Model of Python `args.split(',', 1)` for `.equ`/`.set`. -/
def splitOnceComma (s : Str) : List Str :=
  if s.contains ',' then
    let p := splitAtFirst ',' s
    [p.1, p.2]
  else [s]

/-! ## Line classification (`Assembler.process_line`) -/

/-- Directive-name characters, `[a-zA-Z0-9_]`. -/
def dirChar (c : Char) : Bool := c.isAlpha || c.isDigit || c = '_'

/-- Model of the label regex `^([A-Za-z_.][A-Za-z0-9_.]*):(.*)$`: the name is
the maximal identifier-character run from the start, which must be followed
by a colon; the remainder is everything after the colon. -/
def splitLabel (s : Str) : Option (Str × Str) :=
  match s with
  | [] => none
  | c :: rest =>
    if identStart c then
      let p := rest.span identChar
      match p.2 with
      | ':' :: r2 => some (c :: p.1, r2)
      | _ => none
    else none

/-- Label binding in `process_line`: a `.text` label takes the code cursor;
a data label first pads the data cursor up to a 4-byte boundary, then takes
the padded data cursor. -/
def bindLabel (lab : Str) (σ : AsmState) : AsmState :=
  if σ.currentSection = (".text").data then
    { σ with labels := updateS σ.labels lab σ.address }
  else
    if σ.dataAddress % 4 ≠ 0 then
      let pad := 4 - σ.dataAddress % 4
      { σ with data := σ.data ++ List.replicate pad.toNat 0,
               dataAddress := σ.dataAddress + pad,
               labels := updateS σ.labels lab (σ.dataAddress + pad) }
    else { σ with labels := updateS σ.labels lab σ.dataAddress }

/-! ## Directive actions (`Assembler.process_directive`), one per branch -/

/-- The `.text` branch: switch section and round the code cursor up to 4. -/
def dirText (σ : AsmState) : AsmState :=
  { σ with currentSection := (".text").data,
           address := ((σ.address + 3) / 4) * 4 }

/-- The `.data` branch: switch section (the guarded reassignment of
`data_address` in the source is a no-op). -/
def dirData (σ : AsmState) : AsmState :=
  { σ with currentSection := (".data").data }

/-- The `.byte` branch. -/
def dirByte (args : Str) (σ : AsmState) : AsmState :=
  if args = [] then
    addError σ ((".byte directive requires at least one value").data)
  else if σ.currentSection ≠ (".data").data then
    addError σ ((".byte directive can only appear in .data section").data)
  else emitByteVals (splitCommas args) σ

/-- The `.word` branch: align the data cursor to 2, then emit values. -/
def dirWord (args : Str) (σ : AsmState) : AsmState :=
  if args = [] then
    addError σ ((".word directive requires at least one value").data)
  else if σ.currentSection ≠ (".data").data then
    addError σ ((".word directive can only appear in .data section").data)
  else
    let σ1 :=
      if σ.dataAddress % 2 ≠ 0 then
        { σ with data := σ.data ++ [0], dataAddress := σ.dataAddress + 1 }
      else σ
    emitWordVals (splitCommas args) σ1

/-- The `.dword` branch: align the data cursor to 4 (the `while` loop appends
`(4 - addr % 4) % 4` zero bytes), then emit values. -/
def dirDword (args : Str) (σ : AsmState) : AsmState :=
  if args = [] then
    addError σ ((".dword directive requires at least one value").data)
  else if σ.currentSection ≠ (".data").data then
    addError σ ((".dword directive can only appear in .data section").data)
  else
    let pad := (4 - σ.dataAddress % 4) % 4
    let σ1 := { σ with data := σ.data ++ List.replicate pad.toNat 0,
                       dataAddress := σ.dataAddress + pad }
    emitDwordVals (splitCommas args) σ1

/-- The `.ascii` branch. -/
def dirAscii (args : Str) (σ : AsmState) : AsmState :=
  if args = [] then
    addError σ ((".ascii directive requires a string").data)
  else if σ.currentSection ≠ (".data").data then
    addError σ ((".ascii directive can only appear in .data section").data)
  else
    match quotedArg args with
    | none =>
      addError σ ((("Invalid string format for .ascii: ").data) ++ args)
    | some str =>
      let bs := escBytes str
      { σ with data := σ.data ++ bs,
               dataAddress := σ.dataAddress + bs.length }

/-- The `.asciiz` branch: as `.ascii` plus a zero terminator. -/
def dirAsciiz (args : Str) (σ : AsmState) : AsmState :=
  if args = [] then
    addError σ ((".asciiz directive requires a string").data)
  else if σ.currentSection ≠ (".data").data then
    addError σ ((".asciiz directive can only appear in .data section").data)
  else
    match quotedArg args with
    | none =>
      addError σ ((("Invalid string format for .asciiz: ").data) ++ args)
    | some str =>
      let bs := escBytes str
      { σ with data := σ.data ++ bs ++ [0],
               dataAddress := σ.dataAddress + bs.length + 1 }

/-- The `.space`/`.skip` branch (`d` is the lower-cased directive name, used
in the diagnostics).  In `.text` the size is rounded up to a multiple of 4
and that many NOP bytes are emitted as zero words. -/
def dirSpace (d args : Str) (σ : AsmState) : AsmState :=
  if args = [] then
    addError σ (d ++ ((" directive requires a size").data))
  else
    match splitWs args with
    | [] => addError σ ((("Invalid size for ").data) ++ d ++
        ((": ").data) ++ args)
    | tok :: _ =>
      let p := parse_immediate tok false σ
      let size := p.1
      let σ1 := p.2
      if size ≤ 0 then
        addError σ1 ((("Size for ").data) ++ d ++
          ((" must be positive: ").data) ++ intRepr size)
      else if σ1.currentSection = (".text").data then
        let sz := ((size + 3) / 4) * 4
        { σ1 with instructions :=
            σ1.instructions ++ List.replicate (sz / 4).toNat 0,
                  address := σ1.address + sz }
      else
        { σ1 with data := σ1.data ++ List.replicate size.toNat 0,
                  dataAddress := σ1.dataAddress + size }

/-- The `.align` branch: the padding loop emits one NOP word per 4 bytes of
code padding (`range(0, padding, 4)`) or one zero byte per unit of data
padding. -/
def dirAlign (args : Str) (σ : AsmState) : AsmState :=
  if args = [] then
    addError σ ((".align directive requires an alignment value").data)
  else
    match splitWs args with
    | [] => addError σ ((("Invalid alignment: ").data) ++ args)
    | tok :: _ =>
      let p := parse_immediate tok false σ
      let a := p.1
      let σ1 := p.2
      if a ≤ 0 ∨ (a.toNat &&& (a.toNat - 1)) ≠ 0 then
        addError σ1 ((("Alignment must be a positive power of 2: ").data)
          ++ args)
      else if σ1.currentSection = (".text").data then
        let aligned := ((σ1.address + a - 1) / a) * a
        let padding := aligned - σ1.address
        { σ1 with instructions := σ1.instructions ++
            List.replicate (((padding + 3) / 4).toNat) 0,
                  address := σ1.address + padding }
      else
        let aligned := ((σ1.dataAddress + a - 1) / a) * a
        let padding := aligned - σ1.dataAddress
        { σ1 with data := σ1.data ++ List.replicate padding.toNat 0,
                  dataAddress := σ1.dataAddress + padding }

/-- The `.equ`/`.set` branch (`d` is the lower-cased directive name). -/
def dirEqu (d args : Str) (σ : AsmState) : AsmState :=
  match splitOnceComma args with
  | [namePart, valuePart] =>
    let name := trim namePart
    let valueStr := trim valuePart
    if ¬ isIdent name then
      addError σ ((("Invalid symbol name: ").data) ++ name)
    else
      let p := parse_immediate valueStr false σ
      { p.2 with labels := updateS p.2.labels name p.1 }
  | _ => addError σ ((("Invalid format for ").data) ++ d ++
      ((": ").data) ++ args)

/-- The `.org` branch: pad forward with NOP words (4 bytes each, so the code
cursor lands on the first multiple of 4 at or past the target) or with zero
bytes in data. -/
def dirOrg (args : Str) (σ : AsmState) : AsmState :=
  if args = [] then
    addError σ ((".org directive requires an address").data)
  else
    match splitWs args with
    | [] => addError σ ((("Invalid address for .org: ").data) ++ args)
    | tok :: _ =>
      let p := parse_immediate tok false σ
      let target := p.1
      let σ1 := p.2
      if σ1.currentSection = (".text").data then
        if target < σ1.address then
          addError σ1 ((("Cannot move address backward: ").data) ++ args)
        else
          let count := ((target - σ1.address + 3) / 4)
          { σ1 with instructions :=
              σ1.instructions ++ List.replicate count.toNat 0,
                    address := σ1.address + 4 * count }
      else
        if target < σ1.dataAddress then
          addError σ1 ((("Cannot move data address backward: ").data) ++ args)
        else
          { σ1 with data := σ1.data ++
              List.replicate (target - σ1.dataAddress).toNat 0,
                    dataAddress := target }

/-! ## The driver: line processing, directives, includes -/

/-- Work items of the mutually recursive Python control flow
(`process_line` / `process_directive` / `include_file` / the per-file line
loop), combined into one fuel-indexed recursion that reduces in the kernel. -/
inductive Job where
  | line (s : Str)
  | directive (name args : Str)
  | includeF (fname : Str)
  | fileLines (ls : List Str) (lineNo : Nat)

/-- Section-name constant `".text"`. -/
def textSection : Str := (".text").data
/-- Section-name constant `".data"`. -/
def dataSection : Str := (".data").data

/-- One step of the driver; the fuel only bounds the nesting depth of the
Python recursion (labels on one line, directive dispatch, include nesting),
never the number of lines, so any fuel larger than the nesting depth gives
the Python behaviour.  Branch for branch this is `process_line`,
`process_directive`, `include_file` and the per-file loop from the source;
padding `while`/`range` loops appear in closed form. -/
def run (fuel : Nat) (ctx : Ctx) : Job → AsmState → AsmState :=
  match fuel with
  | 0 => fun _ σ => σ
  | fuel + 1 => fun job σ =>
    match job with
    | .fileLines [] _ => σ
    | .fileLines (l :: ls) n =>
      run fuel ctx (.fileLines ls (n + 1))
        (run fuel ctx (.line l) { σ with currentLine := n })
    | .line line =>
      let l := trim (line.takeWhile (fun c => c != ';'))
      if l = [] then σ
      else
        match splitLabel l with
        | some (lab, rest) =>
          let σ1 := bindLabel lab σ
          let rest2 := trim rest
          if rest2 = [] then σ1 else run fuel ctx (.line rest2) σ1
        | none =>
          if l.head? = some '.' then
            let nameRest := (l.drop 1).takeWhile dirChar
            if nameRest = [] then
              addError σ ((("Invalid directive syntax: ").data) ++ l)
            else
              run fuel ctx
                (.directive ('.' :: nameRest)
                  (((l.drop 1).dropWhile dirChar).dropWhile isWs)) σ
          else if σ.currentSection ≠ textSection then
            addError σ
              ((("Instructions can only appear in .text section: ").data) ++ l)
          else
            let opTok := l.takeWhile (fun c => ¬ isWs c)
            let rest := (l.dropWhile (fun c => ¬ isWs c)).dropWhile isWs
            process_instruction (opTok.map Char.toUpper) rest σ
    | .includeF fname =>
      let abs := ctx.abspath fname
      if memS abs σ.includedFiles then
        addError σ ((("Circular inclusion detected: ").data) ++ fname)
      else
        let σ1 := { σ with includedFiles := σ.includedFiles ++ [abs] }
        let prevFile := σ.currentFile
        let prevLine := σ.currentLine
        let σ2 :=
          match ctx.fs fname with
          | none => addError σ1 ((("Include file not found: ").data) ++ fname)
          | some ls =>
            run fuel ctx (.fileLines ls 1) { σ1 with currentFile := fname }
        { σ2 with currentFile := prevFile, currentLine := prevLine,
                  includedFiles := removeS abs σ2.includedFiles }
    | .directive dname args =>
      let d := dname.map Char.toLower
      if d = textSection then dirText σ
      else if d = dataSection then dirData σ
      else if d = (".byte").data then dirByte args σ
      else if d = (".word").data then dirWord args σ
      else if d = (".dword").data then dirDword args σ
      else if d = (".ascii").data then dirAscii args σ
      else if d = (".asciiz").data then dirAsciiz args σ
      else if d = (".space").data ∨ d = (".skip").data then dirSpace d args σ
      else if d = (".align").data then dirAlign args σ
      else if d = (".equ").data ∨ d = (".set").data then dirEqu d args σ
      else if d = (".org").data then dirOrg args σ
      else if d = (".include").data then
        if args = [] then
          addError σ ((".include directive requires a filename").data)
        else
          match quotedArg args with
          | none =>
            addError σ ((("Invalid filename format for .include: ").data) ++ args)
          | some fname => run fuel ctx (.includeF fname) σ
      else
        addError σ ((("Unknown directive: ").data) ++ d)

/-- Wrapper restoring the source name `process_line`. -/
def process_line (fuel : Nat) (ctx : Ctx) (line : Str) (σ : AsmState) :
    AsmState :=
  run fuel ctx (.line line) σ

/-- Wrapper restoring the source name `process_directive`. -/
def process_directive (fuel : Nat) (ctx : Ctx) (name args : Str)
    (σ : AsmState) : AsmState :=
  run fuel ctx (.directive name args) σ

/-- Wrapper restoring the source name `include_file`. -/
def include_file (fuel : Nat) (ctx : Ctx) (fname : Str) (σ : AsmState) :
    AsmState :=
  run fuel ctx (.includeF fname) σ

/-! ## Fixup pass and emitter -/

/-- Loop body of `Assembler.resolve_references`: for each pending
`(index, symbol, kind)`, if the symbol is now defined, extract `opcode`,
`mode`, `reg1` from the word at `index` and re-encode it with `reg2 = 0` and
the symbol value as immediate; otherwise record `Unresolved symbol`.  Python
indexes `self.instructions[index]` directly and would raise `IndexError` on
an out-of-range index (see the C9 analysis); the model totalises that read
with a default of 0 and makes the out-of-range write a no-op. -/
def resolveRefs : List (Nat × Str × Str) → AsmState → AsmState
  | [], σ => σ
  | (index, symbol, refType) :: rest, σ =>
    match lookupS σ.labels symbol with
    | some value =>
      let w := σ.instructions.getD index 0
      let opcode := decodeOpcode w
      let mode := decodeMode w
      let reg1 := decodeReg1 w
      let nw := encode_instruction opcode mode reg1 0 value
      let σ1 :=
        if refType = ("imm").data then
          { σ with instructions := σ.instructions.set index nw }
        else σ
      resolveRefs rest σ1
    | none =>
      resolveRefs rest (addError σ ((("Unresolved symbol: ").data) ++ symbol))

/-- Model of `Assembler.resolve_references`. -/
def resolve_references (σ : AsmState) : AsmState := resolveRefs σ.unresolved σ

/-- Little-endian byte serialization of one code word
(`struct.pack("<I", instruction)`). -/
def wordBytes (w : Int) : List Int :=
  [w % 256, (w / 256) % 256, (w / 65536) % 256, (w / 16777216) % 256]

/-- Emitter tail of `Assembler.assemble`: serialize the code words; if any
data was emitted, pad the code bytes with zeros up to `DATA_SEGMENT_BASE`
and append the data bytes. -/
def buildBinary (instructions data : List Int) : List Int :=
  let code := (instructions.map wordBytes).flatten
  if data = [] then code
  else
    let codeSize := (code.length : Int)
    let padded :=
      if codeSize < DATA_SEGMENT_BASE then
        code ++ List.replicate (DATA_SEGMENT_BASE - codeSize).toNat 0
      else code
    padded ++ data

/-- Model of `Assembler.assemble`: reset the state, seed the include stack
with the absolute path of the input, process every line, run the fixup pass,
and emit the binary unless a diagnostic accumulated.  The final state is
returned alongside the optional image. -/
def assemble (fuel : Nat) (ctx : Ctx) (sourceLines : List Str)
    (filename : Str) : Option (List Int) × AsmState :=
  let σ0 := { initState with
    currentFile := filename,
    includedFiles := [ctx.abspath filename] }
  let σ1 := run fuel ctx (.fileLines sourceLines 1) σ0
  let σ2 := resolve_references σ1
  if σ2.errors ≠ [] then (none, σ2)
  else (some (buildBinary σ2.instructions σ2.data), σ2)

/-- A context with an empty file system and identity `abspath`, used to
instantiate theorems on concrete runs. -/
def emptyCtx : Ctx := { fs := fun _ => none, abspath := fun s => s }

/-- Initial state of a run on a file called `main.s` with no includes, as
`assemble` sets it up. -/
def mainStart : AsmState :=
  { initState with currentFile := ("main.s").data,
                   includedFiles := [("main.s").data] }

/-- A run state in which the symbol `dup` is already bound (for instantiating
the redefinition theorem). -/
def dupState : AsmState :=
  { mainStart with labels := [((("dup").data), 0)] }

/-- A run state holding one emitted `JZ` word and one pending forward
reference to `tgt` (for instantiating the fixup theorem). -/
def fixupState : AsmState :=
  { mainStart with labels := [((("tgt").data), 12)],
                   instructions := [0x61000000],
                   unresolved := [(0, (("tgt").data), (("imm").data))] }
/-! ## Shared arithmetic lemmas about the encoder -/

/-- Arithmetic form of the encoder in the immediate-split branch. -/
theorem encode_instruction_imm (op m r1 r2 i : Int) (h : m % 16 ∈ immModes) :
    encode_instruction op m r1 r2 i =
      (op % 256) * 16777216 + (m % 16) * 1048576 + (r1 % 16) * 65536 +
        ((i / 4096) % 16) * 4096 + i % 4096 := by
  simp only [encode_instruction, if_pos h]

/-- Arithmetic form of the encoder in the register branch. -/
theorem encode_instruction_reg (op m r1 r2 i : Int) (h : m % 16 ∉ immModes) :
    encode_instruction op m r1 r2 i =
      (op % 256) * 16777216 + (m % 16) * 1048576 + (r1 % 16) * 65536 +
        (r2 % 16) * 4096 + i % 4096 := by
  simp only [encode_instruction, if_neg h]

/-! ## Shared list and table lemmas -/

/-- Reading back a freshly written symbol-table binding. -/
theorem lookupS_updateS_self {α : Type} (l : List (Str × α)) (s : Str) (v : α) :
    lookupS (updateS l s v) s = some v := by
  induction l with
  | nil => simp [updateS, lookupS]
  | cons kv rest ih =>
    obtain ⟨k, w⟩ := kv
    by_cases h : s = k
    · simp [updateS, lookupS, h]
    · simp [updateS, lookupS, h, ih]

/-- Reading the updated position after `List.set`. -/
theorem getD_set_eq_of_lt (l : List Int) (j : Nat) (a : Int)
    (h : j < l.length) : (l.set j a).getD j 0 = a := by
  simp [List.getD_eq_getD_get?, List.get?_eq_getElem?,
    List.getElem?_set_eq_of_lt _ h]

/-- Reading another position after `List.set`. -/
theorem getD_set_ne (l : List Int) (j i : Nat) (a : Int)
    (h : j ≠ i) : (l.set j a).getD i 0 = l.getD i 0 := by
  simp [List.getD_eq_getD_get?, List.get?_eq_getElem?,
    List.getElem?_set_ne h]

/-- Each code word serializes to exactly 4 bytes. -/
theorem codeBytes_length (l : List Int) :
    ((l.map wordBytes).flatten).length = 4 * l.length := by
  induction l with
  | nil => rfl
  | cons w rest ih =>
    simp [wordBytes, ih]
    omega

/-! ## Lemmas about the fixup pass -/

/-- Re-encoding a word with its own opcode/mode/reg1, `reg2 = 0` and a new
immediate (the fixup step) preserves opcode, mode and reg1, and stores the
low 16 bits of the new value in the recombined immediate field. -/
theorem resolve_word_fields (w v : Int) :
    decodeOpcode (encode_instruction (decodeOpcode w) (decodeMode w)
      (decodeReg1 w) 0 v) = decodeOpcode w ∧
    decodeMode (encode_instruction (decodeOpcode w) (decodeMode w)
      (decodeReg1 w) 0 v) = decodeMode w ∧
    decodeReg1 (encode_instruction (decodeOpcode w) (decodeMode w)
      (decodeReg1 w) 0 v) = decodeReg1 w ∧
    (decodeMode w ∈ immModes →
      decodeImm (encode_instruction (decodeOpcode w) (decodeMode w)
        (decodeReg1 w) 0 v) = v % 65536) := by
  have hm : decodeMode w % 16 = decodeMode w := by
    simp only [decodeMode]; omega
  by_cases h : decodeMode w ∈ immModes
  · rw [encode_instruction_imm _ _ _ _ _ (by rwa [hm])]
    have h2 : decodeMode ((decodeOpcode w % 256) * 16777216 +
        (decodeMode w % 16) * 1048576 + (decodeReg1 w % 16) * 65536 +
        ((v / 4096) % 16) * 4096 + v % 4096) = decodeMode w := by
      simp only [decodeOpcode, decodeMode, decodeReg1]; omega
    refine ⟨?_, h2, ?_, fun _ => ?_⟩
    · simp only [decodeOpcode, decodeMode, decodeReg1]; omega
    · simp only [decodeOpcode, decodeMode, decodeReg1]; omega
    · rw [decodeImm, if_pos (by rwa [h2])]
      simp only [decodeOpcode, decodeMode, decodeReg1, decodeReg2, decodeImm12]
      omega
  · rw [encode_instruction_reg _ _ _ _ _ (by rwa [hm])]
    refine ⟨?_, ?_, ?_, fun hc => absurd hc h⟩ <;>
      · simp only [decodeOpcode, decodeMode, decodeReg1]; omega

/-- Fixup entries whose index differs from `i` leave the word at `i`
unchanged. -/
theorem resolveRefs_getD_untouched (refs : List (Nat × Str × Str))
    (σ : AsmState) (i : Nat) (h : ∀ e ∈ refs, e.1 ≠ i) :
    (resolveRefs refs σ).instructions.getD i 0 =
      σ.instructions.getD i 0 := by
  induction refs generalizing σ with
  | nil => rfl
  | cons e rest ih =>
    obtain ⟨j, s, t⟩ := e
    have hj : j ≠ i := h (j, s, t) (List.mem_cons_self _ _)
    have hrest : ∀ e ∈ rest, e.1 ≠ i := fun e he => h e (List.mem_cons_of_mem _ he)
    simp only [resolveRefs]
    cases lookupS σ.labels s with
    | some v =>
      simp only
      by_cases ht : t = ("imm").data
      · rw [if_pos ht, ih _ hrest]
        simp only [List.getD_eq_getD_get?, List.get?_eq_getElem?]
        rw [List.getElem?_set_ne hj]
      · rw [if_neg ht, ih _ hrest]
    | none =>
      rw [ih _ hrest]
      simp [addError]

/-! ## Cursor-preservation lemmas (toward claim C7) -/

/-- Diagnostics do not move the code cursor. -/
theorem addError_address (σ : AsmState) (m : Str) :
    (addError σ m).address = σ.address := rfl

/-- Register parsing does not move the code cursor. -/
theorem parse_register_address (t : Str) (σ : AsmState) :
    (parse_register t σ).2.address = σ.address := by
  simp only [parse_register]
  repeat' split
  all_goals rfl

/-- Immediate parsing does not move the code cursor. -/
theorem parse_immediate_address (t : Str) (b : Bool) (σ : AsmState) :
    (parse_immediate t b σ).2.address = σ.address := by
  simp only [parse_immediate]
  repeat' split
  all_goals rfl

/-- Operand parsing does not move the code cursor. -/
theorem parse_operand_address (t : Str) (σ : AsmState) :
    (parse_operand t σ).2.address = σ.address := by
  simp only [parse_operand]
  repeat' split
  all_goals
    first
    | rfl
    | simp only [parse_immediate_address, parse_register_address,
        addError_address]

/-- The operand loop does not move the code cursor. -/
theorem opLoop_address (raws : List Str) (i : Nat) (σ : AsmState)
    (ops : List Operand) (ms : List Int) (fs : List (Nat × Str)) :
    (opLoop raws i σ ops ms fs).2.2.2.address = σ.address := by
  induction raws generalizing i σ ops ms fs with
  | nil => rfl
  | cons chunk rest ih =>
    simp only [opLoop]
    split
    · exact ih _ _ _ _ _
    · rw [ih _ _ _ _ _]
      exact parse_operand_address _ _

/-- The value loop of `.byte` does not move the code cursor. -/
theorem emitByteVals_address (vs : List Str) (σ : AsmState) :
    (emitByteVals vs σ).address = σ.address := by
  induction vs generalizing σ with
  | nil => rfl
  | cons v rest ih =>
    simp only [emitByteVals]
    split
    · exact ih σ
    · rw [ih]
      simp only [parse_immediate_address]

/-- The value loop of `.word` does not move the code cursor. -/
theorem emitWordVals_address (vs : List Str) (σ : AsmState) :
    (emitWordVals vs σ).address = σ.address := by
  induction vs generalizing σ with
  | nil => rfl
  | cons v rest ih =>
    simp only [emitWordVals]
    split
    · exact ih σ
    · rw [ih]
      simp only [parse_immediate_address]

/-- The value loop of `.dword` does not move the code cursor. -/
theorem emitDwordVals_address (vs : List Str) (σ : AsmState) :
    (emitDwordVals vs σ).address = σ.address := by
  induction vs generalizing σ with
  | nil => rfl
  | cons v rest ih =>
    simp only [emitDwordVals]
    split
    · exact ih σ
    · rw [ih]
      simp only [parse_immediate_address]

/-- Instruction processing preserves 4-byte alignment of the code cursor. -/
theorem process_instruction_ops_addr_mod (o : Str) (r : List Str)
    (σ : AsmState) :
    (process_instruction_ops o r σ).address % 4 = σ.address % 4 := by
  simp only [process_instruction_ops]
  repeat' split
  all_goals
    first
    | rfl
    | simp only [addError_address, opLoop_address]
    | (simp only [appendInstr, queueRef, addError_address, opLoop_address]
       omega)

/-- Defining a label does not move the code cursor. -/
theorem bindLabel_address (lab : Str) (σ : AsmState) :
    (bindLabel lab σ).address = σ.address := by
  simp only [bindLabel]
  repeat' split
  all_goals rfl

/-- A positive number whose bitwise AND with its predecessor vanishes is a
power of two (the `.align` validity test). -/
theorem pow2_of_and_pred_eq_zero (n : Nat) (hpos : 0 < n)
    (h : n &&& (n - 1) = 0) : ∃ k, n = 2 ^ k := by
  induction n using Nat.strong_induction_on with
  | _ n ih =>
    rcases Nat.even_or_odd n with he | ho
    · obtain ⟨b, hb⟩ := he
      have hb2 : n = 2 * b := by omega
      have hbpos : 0 < b := by omega
      by_cases hb1 : b = 0
      · omega
      · have hstep : b &&& (b - 1) = 0 := by
          apply Nat.eq_of_testBit_eq
          intro i
          have := congrArg (fun m => m.testBit (i + 1)) h
          simp only [Nat.testBit_and, Nat.zero_testBit] at this ⊢
          have e1 : n.testBit (i + 1) = b.testBit i := by
            rw [Nat.testBit_succ]
            congr 1
            omega
          have e2 : (n - 1).testBit (i + 1) = (b - 1).testBit i := by
            rw [Nat.testBit_succ]
            congr 1
            omega
          rw [e1, e2] at this
          exact this
        obtain ⟨k, hk⟩ := ih b (by omega) hbpos hstep
        exact ⟨k + 1, by rw [hb2, hk, pow_succ]; ring⟩
    · by_cases h1 : n = 1
      · exact ⟨0, by simpa using h1⟩
      · exfalso
        obtain ⟨m, hm⟩ := ho
        have hmpos : 0 < m := by omega
        have hhalf : (n - 1) / 2 = m := by omega
        have hex : ∃ i, m.testBit i = true := by
          by_contra hc
          push_neg at hc
          have : m = 0 := by
            apply Nat.eq_of_testBit_eq
            intro i
            simp [hc i, Nat.zero_testBit]
          omega
        obtain ⟨i, hi⟩ := hex
        have hcontr := congrArg (fun x => x.testBit (i + 1)) h
        simp only [Nat.testBit_and, Nat.zero_testBit] at hcontr
        have e1 : n.testBit (i + 1) = true := by
          rw [Nat.testBit_succ]
          have : n / 2 = m := by omega
          rw [this]
          exact hi
        have e2 : (n - 1).testBit (i + 1) = true := by
          rw [Nat.testBit_succ, hhalf]
          exact hi
        rw [e1, e2] at hcontr
        simp at hcontr

/-- The round-up of `.align` keeps a 4-byte-aligned cursor aligned when the
alignment passed the power-of-two test. -/
theorem align_keeps_mod4 (x a : Int) (hx : x % 4 = 0) (hpos : 0 < a)
    (h : a.toNat &&& (a.toNat - 1) = 0) :
    (((x + a - 1) / a) * a) % 4 = 0 := by
  obtain ⟨k, hk⟩ := pow2_of_and_pred_eq_zero a.toNat (by omega) h
  have h1 : (a.toNat : Int) = (2 : Int) ^ k := by
    exact_mod_cast congrArg (fun (n : Nat) => (n : Int)) hk
  rw [Int.toNat_of_nonneg hpos.le] at h1
  match k, h1 with
  | 0, h1 =>
    simp only [pow_zero] at h1
    subst h1
    omega
  | 1, h1 =>
    simp only [pow_one] at h1
    subst h1
    omega
  | (m + 2), h1 =>
    have h4 : a = 4 * (2 : Int) ^ m := by
      rw [h1]
      ring
    rw [h4]
    have hr : (x + 4 * (2 : Int) ^ m - 1) / (4 * 2 ^ m) * (4 * 2 ^ m) =
        4 * ((x + 4 * 2 ^ m - 1) / (4 * 2 ^ m) * 2 ^ m) := by ring
    rw [hr, Int.mul_emod_right]

/-- Switching to the text section lands the cursor on an aligned address. -/
theorem dirText_addr_mod (σ : AsmState) : (dirText σ).address % 4 = 0 := by
  simp only [dirText]
  omega

/-- Directive `.byte` does not move the code cursor. -/
theorem dirByte_address (args : Str) (σ : AsmState) :
    (dirByte args σ).address = σ.address := by
  simp only [dirByte]
  repeat' split
  all_goals simp only [addError_address, emitByteVals_address]

/-- Directive `.word` does not move the code cursor. -/
theorem dirWord_address (args : Str) (σ : AsmState) :
    (dirWord args σ).address = σ.address := by
  simp only [dirWord]
  repeat' split
  all_goals simp only [addError_address, emitWordVals_address]

/-- Directive `.dword` does not move the code cursor. -/
theorem dirDword_address (args : Str) (σ : AsmState) :
    (dirDword args σ).address = σ.address := by
  simp only [dirDword]
  repeat' split
  all_goals simp only [addError_address, emitDwordVals_address]

/-- Directive `.ascii` does not move the code cursor. -/
theorem dirAscii_address (args : Str) (σ : AsmState) :
    (dirAscii args σ).address = σ.address := by
  simp only [dirAscii]
  repeat' split
  all_goals simp only [addError_address]

/-- Directive `.asciiz` does not move the code cursor. -/
theorem dirAsciiz_address (args : Str) (σ : AsmState) :
    (dirAsciiz args σ).address = σ.address := by
  simp only [dirAsciiz]
  repeat' split
  all_goals simp only [addError_address]

/-- Directives `.equ` and `.set` do not move the code cursor. -/
theorem dirEqu_address (d args : Str) (σ : AsmState) :
    (dirEqu d args σ).address = σ.address := by
  simp only [dirEqu]
  repeat' split
  all_goals simp only [addError_address, parse_immediate_address]

/-- Directives `.space` and `.skip` preserve cursor alignment (they advance
the data cursor, not the code cursor, in the data section; in the code
section the model matches the source in leaving `address` untouched). -/
theorem dirSpace_addr_mod (d args : Str) (σ : AsmState) :
    (dirSpace d args σ).address % 4 = σ.address % 4 := by
  simp only [dirSpace]
  repeat' split
  all_goals simp only [addError_address, parse_immediate_address]
  all_goals first
    | rfl
    | omega

/-- Directive `.align` keeps an aligned code cursor aligned. -/
theorem dirAlign_addr_mod (args : Str) (σ : AsmState)
    (h : σ.address % 4 = 0) : (dirAlign args σ).address % 4 = 0 := by
  simp only [dirAlign]
  split
  · simpa [addError_address] using h
  · split
    · simpa [addError_address] using h
    · rename_i tok more heq
      split
      · simpa [addError_address, parse_immediate_address] using h
      · rename_i hguard
        push_neg at hguard
        split
        · simp only [parse_immediate_address]
          have hal := align_keeps_mod4 σ.address
            ((parse_immediate tok false σ).1) h hguard.1 hguard.2
          have hx2 : σ.address +
              ((σ.address + (parse_immediate tok false σ).1 - 1) /
                (parse_immediate tok false σ).1 *
                (parse_immediate tok false σ).1 - σ.address) =
              (σ.address + (parse_immediate tok false σ).1 - 1) /
                (parse_immediate tok false σ).1 *
                (parse_immediate tok false σ).1 := by ring
          rw [hx2]
          exact hal
        · simpa [parse_immediate_address] using h

/-- Directive `.org` preserves cursor alignment (it rejects unaligned
targets). -/
theorem dirOrg_addr_mod (args : Str) (σ : AsmState) :
    (dirOrg args σ).address % 4 = σ.address % 4 := by
  simp only [dirOrg]
  repeat' split
  all_goals simp only [addError_address, parse_immediate_address]
  all_goals first
    | rfl
    | omega

/-- Every step of the driver keeps the code cursor 4-byte aligned. -/
theorem run_addr_mod (fuel : Nat) (ctx : Ctx) (job : Job) (σ : AsmState)
    (h : σ.address % 4 = 0) : (run fuel ctx job σ).address % 4 = 0 := by
  induction fuel generalizing job σ with
  | zero => exact h
  | succ fuel ih =>
    match job with
    | .fileLines [] _ => exact h
    | .fileLines (l :: ls) n =>
      apply ih
      apply ih
      exact h
    | .line line =>
      rw [run]
      simp only []
      repeat' split
      all_goals
        first
        | exact h
        | (rw [bindLabel_address]; exact h)
        | (apply ih; rw [bindLabel_address]; exact h)
        | (simp only [addError_address]; exact h)
        | (apply ih; exact h)
        | (rw [process_instruction, process_instruction_ops_addr_mod]; exact h)
        | (simp only [process_instruction, process_instruction_ops_addr_mod]
           exact h)
    | .includeF fname =>
      rw [run]
      simp only []
      repeat' split
      all_goals
        first
        | exact h
        | (simp only [addError_address]; exact h)
        | (apply ih; exact h)
    | .directive dname args =>
      rw [run]
      simp only []
      by_cases c1 : List.map Char.toLower dname = textSection
      · rw [if_pos c1]
        exact dirText_addr_mod σ
      rw [if_neg c1]
      by_cases c2 : List.map Char.toLower dname = dataSection
      · rw [if_pos c2]
        exact h
      rw [if_neg c2]
      by_cases c3 : List.map Char.toLower dname = (".byte").data
      · rw [if_pos c3, dirByte_address]
        exact h
      rw [if_neg c3]
      by_cases c4 : List.map Char.toLower dname = (".word").data
      · rw [if_pos c4, dirWord_address]
        exact h
      rw [if_neg c4]
      by_cases c5 : List.map Char.toLower dname = (".dword").data
      · rw [if_pos c5, dirDword_address]
        exact h
      rw [if_neg c5]
      by_cases c6 : List.map Char.toLower dname = (".ascii").data
      · rw [if_pos c6, dirAscii_address]
        exact h
      rw [if_neg c6]
      by_cases c7 : List.map Char.toLower dname = (".asciiz").data
      · rw [if_pos c7, dirAsciiz_address]
        exact h
      rw [if_neg c7]
      by_cases c8 : List.map Char.toLower dname = (".space").data ∨
        List.map Char.toLower dname = (".skip").data
      · rw [if_pos c8, dirSpace_addr_mod]
        exact h
      rw [if_neg c8]
      by_cases c9 : List.map Char.toLower dname = (".align").data
      · rw [if_pos c9]
        exact dirAlign_addr_mod args σ h
      rw [if_neg c9]
      by_cases c10 : List.map Char.toLower dname = (".equ").data ∨
        List.map Char.toLower dname = (".set").data
      · rw [if_pos c10, dirEqu_address]
        exact h
      rw [if_neg c10]
      by_cases c11 : List.map Char.toLower dname = (".org").data
      · rw [if_pos c11, dirOrg_addr_mod]
        exact h
      rw [if_neg c11]
      by_cases c12 : List.map Char.toLower dname = (".include").data
      · rw [if_pos c12]
        by_cases c13 : args = []
        · rw [if_pos c13]
          exact h
        · rw [if_neg c13]
          cases quotedArg args with
          | none => exact h
          | some fname2 => exact ih _ _ h
      · rw [if_neg c12]
        exact h

/-- When the code cursor is aligned, binding a label (in either section)
records an aligned value: text labels take the aligned code cursor, data
labels take the data cursor rounded up to the next 4-byte boundary. -/
theorem bindLabel_aligned (L : Str) (σ : AsmState) (h : σ.address % 4 = 0) :
    ∃ v, lookupS (bindLabel L σ).labels L = some v ∧ v % 4 = 0 := by
  simp only [bindLabel]
  split
  · exact ⟨σ.address, lookupS_updateS_self _ _ _, h⟩
  · split
    · exact ⟨σ.dataAddress + (4 - σ.dataAddress % 4),
        lookupS_updateS_self _ _ _, by omega⟩
    · rename_i hmod
      exact ⟨σ.dataAddress, lookupS_updateS_self _ _ _, by omega⟩

/-! ## Decimal-numeral lemmas (toward claim C2) -/

/-- The digit generator yields no digits at zero, for any fuel. -/
theorem natDigitsRevAux_zero (fuel : Nat) : natDigitsRevAux fuel 0 = [] := by
  cases fuel <;> rfl

/-- Digit characters evaluate back to their digit value. -/
theorem digitVal_digitChar (d : Nat) (h : d < 10) :
    digitVal (Nat.digitChar d) = some d := by
  interval_cases d <;> decide

/-- Character-class facts about decimal digit characters. -/
theorem digitChar_class (d : Nat) (h : d < 10) :
    Char.isDigit (Nat.digitChar d) = true ∧
    identStart (Nat.digitChar d) = false ∧
    isWs (Nat.digitChar d) = false ∧
    Nat.digitChar d ≠ '+' ∧ Nat.digitChar d ≠ '-' ∧
    Nat.digitChar d ≠ ']' ∧ Nat.digitChar d ≠ '#' ∧
    Nat.digitChar d ≠ 'x' ∧ Nat.digitChar d ≠ 'X' ∧
    Nat.digitChar d ≠ 'b' ∧ Nat.digitChar d ≠ 'B' := by
  interval_cases d <;> exact ⟨by decide, by decide, by decide, by decide,
    by decide, by decide, by decide, by decide, by decide, by decide, by decide⟩

/-- Nonzero digit characters differ from the zero digit. -/
theorem digitChar_ne_zero (d : Nat) (h1 : 1 ≤ d) (h9 : d ≤ 9) :
    Nat.digitChar d ≠ '0' := by
  interval_cases d <;> decide

/-- Every character of a generated digit string is a digit character. -/
theorem natDigitsRevAux_chars (fuel n : Nat) (c : Char)
    (hc : c ∈ natDigitsRevAux fuel n) : ∃ d, d < 10 ∧ c = Nat.digitChar d := by
  induction fuel generalizing n with
  | zero => cases hc
  | succ fuel ih =>
    match n, hc with
    | 0, hc => cases hc
    | (m + 1), hc =>
      rcases List.mem_cons.mp hc with h | h
      · exact ⟨(m + 1) % 10, by omega, h⟩
      · exact ih _ h

/-- Appending digits to the accumulating parser. -/
theorem parseBaseAcc_append (b acc : Nat) (xs ys : Str) :
    parseBaseAcc b acc (xs ++ ys) =
      match parseBaseAcc b acc xs with
      | some a => parseBaseAcc b a ys
      | none => none := by
  induction xs generalizing acc with
  | nil => rfl
  | cons c cs ih =>
    simp only [List.cons_append, parseBaseAcc]
    cases digitVal c with
    | none => rfl
    | some d =>
      simp only
      by_cases hd : d < b
      · rw [if_pos hd, if_pos hd]
        simp only [List.append_eq]
        rw [ih]
      · rw [if_neg hd, if_neg hd]

/-- The accumulating parser inverts the digit generator. -/
theorem parseBaseAcc_digits (fuel n acc : Nat) (h : n ≤ fuel) :
    parseBaseAcc 10 acc ((natDigitsRevAux fuel n).reverse) =
      some (acc * 10 ^ (natDigitsRevAux fuel n).length + n) := by
  induction fuel generalizing n acc with
  | zero =>
    have hn : n = 0 := by omega
    subst hn
    simp [natDigitsRevAux, parseBaseAcc]
  | succ fuel ih =>
    match n with
    | 0 => simp [natDigitsRevAux_zero, parseBaseAcc]
    | (m + 1) =>
      have hstep : natDigitsRevAux (fuel + 1) (m + 1) =
          Nat.digitChar ((m + 1) % 10) :: natDigitsRevAux fuel ((m + 1) / 10) :=
        rfl
      rw [hstep]
      simp only [List.reverse_cons, List.length_cons]
      rw [parseBaseAcc_append, ih ((m + 1) / 10) acc (by omega)]
      simp only []
      simp only [parseBaseAcc, digitVal_digitChar ((m + 1) % 10) (by omega)]
      rw [if_pos (by omega)]
      congr 1
      have hp : 10 ^ (natDigitsRevAux fuel ((m + 1) / 10)).length * 10 =
          10 ^ ((natDigitsRevAux fuel ((m + 1) / 10)).length + 1) := by
        rw [pow_succ]
      have hsplit : (m + 1) / 10 * 10 + (m + 1) % 10 = m + 1 := by omega
      calc (acc * 10 ^ (natDigitsRevAux fuel ((m + 1) / 10)).length +
            (m + 1) / 10) * 10 + (m + 1) % 10
          = acc * (10 ^ (natDigitsRevAux fuel ((m + 1) / 10)).length * 10) +
            ((m + 1) / 10 * 10 + (m + 1) % 10) := by ring
        _ = acc * 10 ^ ((natDigitsRevAux fuel ((m + 1) / 10)).length + 1) +
            (m + 1) := by rw [hp, hsplit]

/-- The leading character of the digit string of a positive number is a
nonzero digit character. -/
theorem natDigitsRev_getLast (fuel n : Nat) (h1 : 1 ≤ n) (h2 : n ≤ fuel) :
    ∃ d, 1 ≤ d ∧ d ≤ 9 ∧
      (natDigitsRevAux fuel n).getLast? = some (Nat.digitChar d) := by
  induction fuel generalizing n with
  | zero => omega
  | succ fuel ih =>
    match n, h1 with
    | (m + 1), _ =>
      have hstep : natDigitsRevAux (fuel + 1) (m + 1) =
          Nat.digitChar ((m + 1) % 10) :: natDigitsRevAux fuel ((m + 1) / 10) :=
        rfl
      by_cases hsmall : m + 1 < 10
      · have hq : (m + 1) / 10 = 0 := by omega
        refine ⟨m + 1, by omega, by omega, ?_⟩
        rw [hstep, hq, natDigitsRevAux_zero]
        have hr : (m + 1) % 10 = m + 1 := by omega
        rw [hr]
        rfl
      · obtain ⟨d, hd1, hd9, hlast⟩ := ih ((m + 1) / 10) (by omega) (by omega)
        refine ⟨d, hd1, hd9, ?_⟩
        rw [hstep]
        cases htl : natDigitsRevAux fuel ((m + 1) / 10) with
        | nil => rw [htl] at hlast; cases hlast
        | cons c cs =>
          rw [htl] at hlast
          rw [List.getLast?_cons_cons]
          exact hlast

/-- The decimal numeral of a positive number, unfolded. -/
theorem decStr_pos (k : Nat) (hk : 0 < k) :
    decStr k = (natDigitsRevAux k k).reverse := by
  simp only [decStr, natDigitsRev]
  rw [if_neg (by omega)]

/-- The numeral of a positive number starts with a nonzero digit. -/
theorem decStr_head (k : Nat) (hk : 0 < k) :
    ∃ d, 1 ≤ d ∧ d ≤ 9 ∧ (decStr k).head? = some (Nat.digitChar d) := by
  obtain ⟨d, h1, h9, hlast⟩ := natDigitsRev_getLast k k hk (le_refl k)
  exact ⟨d, h1, h9, by rw [decStr_pos k hk, List.head?_reverse, hlast]⟩

/-- Every character of the numeral is a digit character. -/
theorem decStr_chars (k : Nat) (hk : 0 < k) (c : Char) (hc : c ∈ decStr k) :
    ∃ d, d < 10 ∧ c = Nat.digitChar d := by
  rw [decStr_pos k hk] at hc
  exact natDigitsRevAux_chars k k c (List.mem_reverse.mp hc)

/-- Parsing the numeral in base 10 recovers the number. -/
theorem parseBase10_decStr (k : Nat) (hk : 0 < k) :
    parseBase 10 (decStr k) = some k := by
  obtain ⟨d, _, _, hhead⟩ := decStr_head k hk
  have hacc := parseBaseAcc_digits k k 0 (le_refl k)
  rw [← decStr_pos k hk] at hacc
  cases hl : decStr k with
  | nil => rw [hl] at hhead; cases hhead
  | cons c rest =>
    rw [hl] at hacc
    simpa [parseBase] using hacc

/-- Parsing the numeral as a Python integer literal recovers the number. -/
theorem parseDec_decStr (k : Nat) (hk : 0 < k) :
    parseDec (decStr k) = some (k : Int) := by
  obtain ⟨d, h1, h9, hhead⟩ := decStr_head k hk
  have hbase := parseBase10_decStr k hk
  cases hl : decStr k with
  | nil => rw [hl] at hhead; cases hhead
  | cons c rest =>
    rw [hl] at hhead hbase
    have hc : c = Nat.digitChar d := by simpa using hhead
    have hne1 : c ≠ '-' := by
      rw [hc]; exact (digitChar_class d (by omega)).2.2.2.2.1
    have hne2 : c ≠ '+' := by
      rw [hc]; exact (digitChar_class d (by omega)).2.2.2.1
    simp only [parseDec]
    split
    · rename_i heq
      cases heq
      exact absurd rfl hne1
    · rename_i heq
      cases heq
      exact absurd rfl hne2
    · rw [hbase]
      rfl

/-- Strings without whitespace are unchanged by `strip`. -/
theorem trim_eq_self (s : Str) (h : ∀ c ∈ s, isWs c = false) :
    trim s = s := by
  have h1 : ∀ (t : Str), (∀ c ∈ t, isWs c = false) → t.dropWhile isWs = t := by
    intro t ht
    cases t with
    | nil => rfl
    | cons c cs =>
      rw [List.dropWhile_cons, ht c (List.mem_cons_self _ _)]
      simp
  rw [trim, h1 s h, h1 s.reverse (fun c hc => h c (List.mem_reverse.mp hc)),
    List.reverse_reverse]

/-- A numeral token is not an identifier (it starts with a digit). -/
theorem isIdent_decStr (k : Nat) (hk : 0 < k) : isIdent (decStr k) = false := by
  obtain ⟨d, h1, h9, hhead⟩ := decStr_head k hk
  cases hl : decStr k with
  | nil => rfl
  | cons c rest =>
    rw [hl] at hhead
    have hc : c = Nat.digitChar d := by simpa using hhead
    simp [isIdent, hc, (digitChar_class d (by omega)).2.1]

/-- Parsing a numeral token as an immediate returns its value unchanged. -/
theorem parse_immediate_decStr (k : Nat) (hk : 0 < k) (b : Bool)
    (σ : AsmState) : parse_immediate (decStr k) b σ = (((k : Nat) : Int), σ) := by
  obtain ⟨d, h1, h9, hhead⟩ := decStr_head k hk
  have hid := isIdent_decStr k hk
  have hdec := parseDec_decStr k hk
  cases hl : decStr k with
  | nil => rw [hl] at hhead; cases hhead
  | cons c rest =>
    rw [hl] at hhead hid hdec
    have hc : c = Nat.digitChar d := by simpa using hhead
    have hc0 : c ≠ '0' := by rw [hc]; exact digitChar_ne_zero d h1 h9
    have htake2 : List.take 2 (c :: rest) = c :: List.take 1 rest := rfl
    simp only [parse_immediate, hid, Bool.false_eq_true, if_false]
    rw [if_neg, if_neg, if_neg]
    · rw [hdec]
    · intro hcon
      exact hc0 (by simpa using hcon.1)
    · intro hcon
      rcases hcon with hx | hx <;>
        · rw [htake2] at hx
          exact hc0 (by injection hx)
    · intro hcon
      rcases hcon with hx | hx <;>
        · rw [htake2] at hx
          exact hc0 (by injection hx)

/-- The bracket pattern on a fully bracketed string yields the inner text. -/
theorem bracketInner_wrap (xs : Str) :
    bracketInner ('[' :: (xs ++ [']'])) = some xs := by
  simp only [bracketInner, List.reverse_append]
  have : ([']'] : Str).reverse = [']'] := rfl
  rw [this]
  simp only [List.singleton_append, List.dropWhile_cons]
  have hbeq : ((']' : Char) != ']') = false := by decide
  rw [hbeq]
  simp

/-- A key set free of some character cannot match a string containing it. -/
theorem lookupS_none_of_char {α : Type} (tbl : List (Str × α)) (s : Str)
    (c : Char) (hc : c ∈ s) (htbl : ∀ kv ∈ tbl, c ∉ kv.1) :
    lookupS tbl s = none := by
  induction tbl with
  | nil => rfl
  | cons kv rest ih =>
    obtain ⟨key, v⟩ := kv
    simp only [lookupS]
    rw [if_neg, ih]
    · intro kv2 hkv2
      exact htbl kv2 (List.mem_cons_of_mem _ hkv2)
    · intro heq
      exact htbl (key, v) (List.mem_cons_self _ _) (heq ▸ hc)

/-- Membership test `contains` is false for a character not in the list. -/
theorem contains_eq_false {s : Str} {c : Char} (h : c ∉ s) :
    s.contains c = false := by
  simpa using h

/-- Membership test `contains` is true for a member. -/
theorem contains_eq_true {s : Str} {c : Char} (h : c ∈ s) :
    s.contains c = true := by
  simpa using h

/-- Collected character-class facts for all characters of a numeral. -/
theorem digit_facts (k : Nat) (hk : 0 < k) :
    ∀ c ∈ decStr k, Char.isDigit c = true ∧ identStart c = false ∧
      isWs c = false ∧ c ≠ '+' ∧ c ≠ '-' ∧ c ≠ ']' ∧ c ≠ '#' := by
  intro c hc
  obtain ⟨d, hd, rfl⟩ := decStr_chars k hk c hc
  obtain ⟨a1, a2, a3, a4, a5, a6, a7, _⟩ := digitChar_class d hd
  exact ⟨a1, a2, a3, a4, a5, a6, a7⟩

/-- Operand parsing of a stack-relative negative offset: the 12-bit mask is
applied to the negated offset. -/
theorem parse_operand_SP_minus (k : Nat) (hk : 0 < k) (σ : AsmState) :
    parse_operand ('[' :: 'S' :: 'P' :: '-' :: (decStr k ++ [']'])) σ =
      ((modeSTK, 0, 0, (0 - (k : Int)) % 4096), σ) := by
  have hdig := digit_facts k hk
  have hNoWs : ∀ c ∈ ('[' :: 'S' :: 'P' :: '-' :: (decStr k ++ [']']) : Str),
      isWs c = false := by
    intro c hc
    simp only [List.mem_cons, List.mem_append, List.mem_singleton] at hc
    rcases hc with rfl | rfl | rfl | rfl | h | rfl | h3
    · decide
    · decide
    · decide
    · decide
    · exact (hdig c h).2.2.1
    · decide
    · cases h3
  have hNoWsInner : ∀ c ∈ ('S' :: 'P' :: '-' :: decStr k : Str),
      isWs c = false := by
    intro c hc
    simp only [List.mem_cons] at hc
    rcases hc with rfl | rfl | rfl | h
    · decide
    · decide
    · decide
    · exact (hdig c h).2.2.1
  have htrim : trim ('[' :: 'S' :: 'P' :: '-' :: (decStr k ++ [']'])) =
      '[' :: 'S' :: 'P' :: '-' :: (decStr k ++ [']']) :=
    trim_eq_self _ hNoWs
  have hbr : bracketInner ('[' :: 'S' :: 'P' :: '-' :: (decStr k ++ [']'])) =
      some ('S' :: 'P' :: '-' :: decStr k) := by
    have hw := bracketInner_wrap ('S' :: 'P' :: '-' :: decStr k)
    simpa [List.cons_append] using hw
  have htrimInner : trim ('S' :: 'P' :: '-' :: decStr k) =
      'S' :: 'P' :: '-' :: decStr k :=
    trim_eq_self _ hNoWsInner
  have hreg : isRegToken ('S' :: 'P' :: '-' :: decStr k) = false := by
    have hlk : lookupS registersTable ('S' :: 'P' :: '-' :: decStr k) = none :=
      lookupS_none_of_char _ _ '-' (by simp) (by decide)
    simp [isRegToken, hlk]
  have hplus : ('S' :: 'P' :: '-' :: decStr k).contains '+' = false := by
    apply contains_eq_false
    simp only [List.mem_cons]
    rintro (h | h | h | h)
    · cases h
    · cases h
    · cases h
    · exact (hdig '+' h).2.2.2.1 rfl
  have hminus : ('S' :: 'P' :: '-' :: decStr k).contains '-' = true := by
    apply contains_eq_true
    simp
  have hsplit : splitAtFirst '-' ('S' :: 'P' :: '-' :: decStr k) =
      (['S', 'P'], decStr k) := by
    simp [splitAtFirst]
  have htrimSP : trim (['S', 'P'] : Str) = ['S', 'P'] := by decide
  have htrimDig : trim (decStr k) = decStr k :=
    trim_eq_self _ (fun c hc => (hdig c hc).2.2.1)
  have hregSP : isRegToken (['S', 'P'] : Str) = true := by decide
  have hpr : parse_register (['S', 'P'] : Str) σ = (2, σ) := by
    have hlk2 : lookupS registersTable (['S', 'P'] : Str) = some 2 := by
      decide
    simp [parse_register, hlk2]
  have hpi := parse_immediate_decStr k hk true σ
  have hplusmem : '+' ∉ decStr k := fun h => (hdig '+' h).2.2.2.1 rfl
  simp +decide [parse_operand, htrim, hbr, htrimInner, hreg, hplus, hminus,
    hsplit, htrimSP, htrimDig, hregSP, hpr, hpi, hplusmem, modeSTK]

/-- Operand parsing of a base-relative negative offset: the 12-bit mask is
applied to the negated offset. -/
theorem parse_operand_BP_minus (k : Nat) (hk : 0 < k) (σ : AsmState) :
    parse_operand ('[' :: 'B' :: 'P' :: '-' :: (decStr k ++ [']'])) σ =
      ((modeBAS, 0, 0, (0 - (k : Int)) % 4096), σ) := by
  have hdig := digit_facts k hk
  have hNoWs : ∀ c ∈ ('[' :: 'B' :: 'P' :: '-' :: (decStr k ++ [']']) : Str),
      isWs c = false := by
    intro c hc
    simp only [List.mem_cons, List.mem_append, List.mem_singleton] at hc
    rcases hc with rfl | rfl | rfl | rfl | h | rfl | h3
    · decide
    · decide
    · decide
    · decide
    · exact (hdig c h).2.2.1
    · decide
    · cases h3
  have hNoWsInner : ∀ c ∈ ('B' :: 'P' :: '-' :: decStr k : Str),
      isWs c = false := by
    intro c hc
    simp only [List.mem_cons] at hc
    rcases hc with rfl | rfl | rfl | h
    · decide
    · decide
    · decide
    · exact (hdig c h).2.2.1
  have htrim : trim ('[' :: 'B' :: 'P' :: '-' :: (decStr k ++ [']'])) =
      '[' :: 'B' :: 'P' :: '-' :: (decStr k ++ [']']) :=
    trim_eq_self _ hNoWs
  have hbr : bracketInner ('[' :: 'B' :: 'P' :: '-' :: (decStr k ++ [']'])) =
      some ('B' :: 'P' :: '-' :: decStr k) := by
    have hw := bracketInner_wrap ('B' :: 'P' :: '-' :: decStr k)
    simpa [List.cons_append] using hw
  have htrimInner : trim ('B' :: 'P' :: '-' :: decStr k) =
      'B' :: 'P' :: '-' :: decStr k :=
    trim_eq_self _ hNoWsInner
  have hreg : isRegToken ('B' :: 'P' :: '-' :: decStr k) = false := by
    have hlk : lookupS registersTable ('B' :: 'P' :: '-' :: decStr k) = none :=
      lookupS_none_of_char _ _ '-' (by simp) (by decide)
    simp [isRegToken, hlk]
  have hplus : ('B' :: 'P' :: '-' :: decStr k).contains '+' = false := by
    apply contains_eq_false
    simp only [List.mem_cons]
    rintro (h | h | h | h)
    · cases h
    · cases h
    · cases h
    · exact (hdig '+' h).2.2.2.1 rfl
  have hminus : ('B' :: 'P' :: '-' :: decStr k).contains '-' = true := by
    apply contains_eq_true
    simp
  have hsplit : splitAtFirst '-' ('B' :: 'P' :: '-' :: decStr k) =
      (['B', 'P'], decStr k) := by
    simp [splitAtFirst]
  have htrimSP : trim (['B', 'P'] : Str) = ['B', 'P'] := by decide
  have htrimDig : trim (decStr k) = decStr k :=
    trim_eq_self _ (fun c hc => (hdig c hc).2.2.1)
  have hregSP : isRegToken (['B', 'P'] : Str) = true := by decide
  have hpr : parse_register (['B', 'P'] : Str) σ = (1, σ) := by
    have hlk2 : lookupS registersTable (['B', 'P'] : Str) = some 1 := by
      decide
    simp [parse_register, hlk2]
  have hpi := parse_immediate_decStr k hk true σ
  have hplusmem : '+' ∉ decStr k := fun h => (hdig '+' h).2.2.2.1 rfl
  simp +decide [parse_operand, htrim, hbr, htrimInner, hreg, hplus, hminus,
    hsplit, htrimSP, htrimDig, hregSP, hpr, hpi, hplusmem, modeBAS]

/-- Operand parsing of an index-register negative offset: the same 12-bit
mask is applied to the negated offset. -/
theorem parse_operand_R4_minus (k : Nat) (hk : 0 < k) (σ : AsmState) :
    parse_operand ('[' :: 'R' :: '4' :: '-' :: (decStr k ++ [']'])) σ =
      ((modeIDX, 4, 0, (0 - (k : Int)) % 4096), σ) := by
  have hdig := digit_facts k hk
  have hNoWs : ∀ c ∈ ('[' :: 'R' :: '4' :: '-' :: (decStr k ++ [']']) : Str),
      isWs c = false := by
    intro c hc
    simp only [List.mem_cons, List.mem_append, List.mem_singleton] at hc
    rcases hc with rfl | rfl | rfl | rfl | h | rfl | h3
    · decide
    · decide
    · decide
    · decide
    · exact (hdig c h).2.2.1
    · decide
    · cases h3
  have hNoWsInner : ∀ c ∈ ('R' :: '4' :: '-' :: decStr k : Str),
      isWs c = false := by
    intro c hc
    simp only [List.mem_cons] at hc
    rcases hc with rfl | rfl | rfl | h
    · decide
    · decide
    · decide
    · exact (hdig c h).2.2.1
  have htrim : trim ('[' :: 'R' :: '4' :: '-' :: (decStr k ++ [']'])) =
      '[' :: 'R' :: '4' :: '-' :: (decStr k ++ [']']) :=
    trim_eq_self _ hNoWs
  have hbr : bracketInner ('[' :: 'R' :: '4' :: '-' :: (decStr k ++ [']'])) =
      some ('R' :: '4' :: '-' :: decStr k) := by
    have hw := bracketInner_wrap ('R' :: '4' :: '-' :: decStr k)
    simpa [List.cons_append] using hw
  have htrimInner : trim ('R' :: '4' :: '-' :: decStr k) =
      'R' :: '4' :: '-' :: decStr k :=
    trim_eq_self _ hNoWsInner
  have hreg : isRegToken ('R' :: '4' :: '-' :: decStr k) = false := by
    have hlk : lookupS registersTable ('R' :: '4' :: '-' :: decStr k) = none :=
      lookupS_none_of_char _ _ '-' (by simp) (by decide)
    simp +decide [isRegToken, hlk, List.all_cons]
  have hplus : ('R' :: '4' :: '-' :: decStr k).contains '+' = false := by
    apply contains_eq_false
    simp only [List.mem_cons]
    rintro (h | h | h | h)
    · cases h
    · cases h
    · cases h
    · exact (hdig '+' h).2.2.2.1 rfl
  have hminus : ('R' :: '4' :: '-' :: decStr k).contains '-' = true := by
    apply contains_eq_true
    simp
  have hsplit : splitAtFirst '-' ('R' :: '4' :: '-' :: decStr k) =
      (['R', '4'], decStr k) := by
    simp [splitAtFirst]
  have htrimSP : trim (['R', '4'] : Str) = ['R', '4'] := by decide
  have htrimDig : trim (decStr k) = decStr k :=
    trim_eq_self _ (fun c hc => (hdig c hc).2.2.1)
  have hregSP : isRegToken (['R', '4'] : Str) = true := by decide
  have hpr : parse_register (['R', '4'] : Str) σ = (4, σ) := by
    have hlk2 : lookupS registersTable (['R', '4'] : Str) = some 4 := by
      decide
    simp [parse_register, hlk2]
  have hpi := parse_immediate_decStr k hk true σ
  have hplusmem : '+' ∉ decStr k := fun h => (hdig '+' h).2.2.2.1 rfl
  simp +decide [parse_operand, htrim, hbr, htrimInner, hreg, hplus, hminus,
    hsplit, htrimSP, htrimDig, hregSP, hpr, hpi, hplusmem, modeIDX]

/-- Operand parsing of a bracketed symbol-plus-offset whose symbol is not yet
defined queues a fixup keyed by the current length of the code vector. -/
theorem parse_operand_symPlus (σ : AsmState)
    (hs : lookupS σ.labels (("s").data) = none) :
    parse_operand (("[s+4]").data) σ =
      ((modeMEM, 0, 0, 0 + 4),
       { σ with unresolved :=
          σ.unresolved ++ [(σ.instructions.length, (("s").data), (("imm").data))] }) := by
  have e1 : trim (("[s+4]").data) = ("[s+4]").data := by decide
  have e2 : bracketInner (("[s+4]").data) = some (("s+4").data) := by decide
  have e3 : trim (("s+4").data) = ("s+4").data := by decide
  have e4 : isRegToken (("s+4").data) = false := by decide
  have e5 : splitAtFirst '+' (("s+4").data) = ((("s").data), (("4").data)) := by decide
  have e6 : trim (("s").data) = ("s").data := by decide
  have e7 : trim (("4").data) = ("4").data := by decide
  have e8 : isRegToken (("s").data) = false := by decide
  have e9 : offsetNumeric (("4").data) = true := by decide
  have e10 : isIdent (("4").data) = false := by decide
  have e11 : parseDec (("4").data) = some 4 := by decide
  simp +decide [parse_operand, parse_immediate, e1, e2, e3, e4, e5, e6, e7,
    e8, e9, e10, e11, hs, modeMEM]

/-! ## Claim theorems -/

/-- C1: for every tuple whose fields respect their widths (opcode below 2^8,
mode a valid addressing mode, reg1 below 2^4, and, for the immediate-split
modes IMM/MEM/STK/BAS, reg2 = 0 with immediate below 2^16; for all other
modes reg2 below 2^4 and immediate below 2^12), extracting the fields of the
encoded word the way the disassembler does — opcode, mode, reg1, and the
16-bit immediate recombined from the reg2 and low fields in the immediate
modes — returns the original tuple. -/
theorem c1_encoder_decoder_roundtrip (opcode mode reg1 reg2 immediate : Int)
    (hop : 0 ≤ opcode ∧ opcode < 256)
    (hmode : 0 ≤ mode ∧ mode < 7)
    (hr1 : 0 ≤ reg1 ∧ reg1 < 16)
    (himm : mode ∈ immModes → reg2 = 0 ∧ 0 ≤ immediate ∧ immediate < 65536)
    (hoth : mode ∉ immModes →
      (0 ≤ reg2 ∧ reg2 < 16) ∧ 0 ≤ immediate ∧ immediate < 4096) :
    decodeOpcode (encode_instruction opcode mode reg1 reg2 immediate) = opcode ∧
    decodeMode (encode_instruction opcode mode reg1 reg2 immediate) = mode ∧
    decodeReg1 (encode_instruction opcode mode reg1 reg2 immediate) = reg1 ∧
    decodeImm (encode_instruction opcode mode reg1 reg2 immediate) = immediate ∧
    (mode ∉ immModes →
      decodeReg2 (encode_instruction opcode mode reg1 reg2 immediate) = reg2) := by
  have hm16 : mode % 16 = mode := by omega
  by_cases h : mode ∈ immModes
  · obtain ⟨hr2, hi⟩ := himm h
    rw [encode_instruction_imm _ _ _ _ _ (by rwa [hm16])]
    have h1 : decodeOpcode ((opcode % 256) * 16777216 + (mode % 16) * 1048576 +
        (reg1 % 16) * 65536 + ((immediate / 4096) % 16) * 4096 +
        immediate % 4096) = opcode := by
      simp only [decodeOpcode]; omega
    have h2 : decodeMode ((opcode % 256) * 16777216 + (mode % 16) * 1048576 +
        (reg1 % 16) * 65536 + ((immediate / 4096) % 16) * 4096 +
        immediate % 4096) = mode := by
      simp only [decodeMode]; omega
    have h3 : decodeReg1 ((opcode % 256) * 16777216 + (mode % 16) * 1048576 +
        (reg1 % 16) * 65536 + ((immediate / 4096) % 16) * 4096 +
        immediate % 4096) = reg1 := by
      simp only [decodeReg1]; omega
    refine ⟨h1, h2, h3, ?_, fun hn => absurd h hn⟩
    rw [decodeImm, if_pos (by rwa [h2])]
    simp only [decodeReg2, decodeImm12]
    omega
  · obtain ⟨hr2, hi⟩ := hoth h
    rw [encode_instruction_reg _ _ _ _ _ (by rwa [hm16])]
    have h2 : decodeMode ((opcode % 256) * 16777216 + (mode % 16) * 1048576 +
        (reg1 % 16) * 65536 + (reg2 % 16) * 4096 + immediate % 4096) = mode := by
      simp only [decodeMode]; omega
    refine ⟨?_, h2, ?_, ?_, fun _ => ?_⟩
    · simp only [decodeOpcode]; omega
    · simp only [decodeReg1]; omega
    · rw [decodeImm, if_neg (by rwa [h2])]
      simp only [decodeImm12]; omega
    · simp only [decodeReg2]; omega

/-- Witness for C1 at the encoding of `LOAD R5, #0x1234`. -/
theorem c1_roundtrip_witness :
    (0 ≤ (1 : Int) ∧ (1 : Int) < 256) ∧
    decodeOpcode (encode_instruction 1 0 5 0 4660) = 1 ∧
    decodeMode (encode_instruction 1 0 5 0 4660) = 0 ∧
    decodeReg1 (encode_instruction 1 0 5 0 4660) = 5 ∧
    decodeImm (encode_instruction 1 0 5 0 4660) = 4660 := by
  have h := c1_encoder_decoder_roundtrip 1 0 5 0 4660 (by decide) (by decide)
    (by decide) (fun _ => by decide) (fun hn => absurd (by decide) hn)
  exact ⟨by decide, h.1, h.2.1, h.2.2.1, h.2.2.2.1⟩

/-- C2 counterexample: the operand `[SP-8]` parses to mode STK with the
12-bit masked offset 4088, the encoded word carries 4088 as its recombined
16-bit immediate, and 4088 is not the claimed 16-bit pattern 65528. -/
theorem c2_stk_width_counterexample :
    (parse_operand (("[SP-8]").data) initState) =
      ((modeSTK, 0, 0, 4088), initState) ∧
    decodeImm (encode_instruction 1 modeSTK 0 0 4088) = 4088 ∧
    ((4088 : Int) ≠ 65528) := by
  refine ⟨by decide, by decide, by decide⟩

/-- C2 (amended): for every decimal literal k > 0, the operands `[SP-k]`,
`[BP-k]` and `[Rn-k]` all parse with the SAME 12-bit twos-complement offset
`(-k) mod 2^12` — the parser masks with 0xFFF in the STK and BAS branches
exactly as in the IDX branch, not with 0xFFFF — and the encoder stores that
12-bit value unchanged in the recombined 16-bit immediate of STK/BAS
words. -/
theorem c2_offset_encoding (k : Nat) (hk : 0 < k) (σ : AsmState) :
    parse_operand ((("[SP-").data) ++ decStr k ++ (("]").data)) σ =
      ((modeSTK, 0, 0, (0 - (k : Int)) % 4096), σ) ∧
    parse_operand ((("[BP-").data) ++ decStr k ++ (("]").data)) σ =
      ((modeBAS, 0, 0, (0 - (k : Int)) % 4096), σ) ∧
    parse_operand ((("[R4-").data) ++ decStr k ++ (("]").data)) σ =
      ((modeIDX, 4, 0, (0 - (k : Int)) % 4096), σ) ∧
    (∀ op r1 : Int,
      decodeImm (encode_instruction op modeSTK r1 0 ((0 - (k : Int)) % 4096)) =
        (0 - (k : Int)) % 4096) ∧
    (∀ op r1 : Int,
      decodeImm (encode_instruction op modeBAS r1 0 ((0 - (k : Int)) % 4096)) =
        (0 - (k : Int)) % 4096) := by
  have harith : ∀ (m op r1 : Int), m % 16 ∈ immModes →
      decodeImm (encode_instruction op m r1 0 ((0 - (k : Int)) % 4096)) =
        (0 - (k : Int)) % 4096 := by
    intro m op r1 hmem
    rw [encode_instruction_imm _ _ _ _ _ hmem]
    have hmm : m % 16 = 0 ∨ m % 16 = 2 ∨ m % 16 = 5 ∨ m % 16 = 6 := by
      simpa [immModes, modeIMM, modeMEM, modeSTK, modeBAS] using hmem
    have hdm : decodeMode ((op % 256) * 16777216 + (m % 16) * 1048576 +
        (r1 % 16) * 65536 + (((0 - (k : Int)) % 4096 / 4096) % 16) * 4096 +
        (0 - (k : Int)) % 4096 % 4096) = m % 16 := by
      simp only [decodeMode]
      omega
    rw [decodeImm, if_pos (by rw [hdm]; exact hmem)]
    simp only [decodeReg2, decodeImm12]
    omega
  refine ⟨?_, ?_, ?_, fun op r1 => harith modeSTK op r1 (by decide),
    fun op r1 => harith modeBAS op r1 (by decide)⟩
  · have hx := parse_operand_SP_minus k hk σ
    simpa [List.cons_append, List.append_assoc] using hx
  · have hx := parse_operand_BP_minus k hk σ
    simpa [List.cons_append, List.append_assoc] using hx
  · have hx := parse_operand_R4_minus k hk σ
    simpa [List.cons_append, List.append_assoc] using hx

/-- Witness for the amended C2 at k = 8. -/
theorem c2_offset_encoding_witness :
    0 < 8 ∧
    parse_operand ((("[SP-").data) ++ decStr 8 ++ (("]").data)) initState =
      ((modeSTK, 0, 0, (0 - (8 : Int)) % 4096), initState) :=
  ⟨by decide, (c2_offset_encoding 8 (by decide) initState).1⟩

/-- C3 counterexample: the program `dup:` / `NOP` / `dup:` assembles with no
diagnostic, and the second definition silently overwrites the first (the
label ends bound to address 4, not 0). -/
theorem c3_redefinition_counterexample :
    (run 9 emptyCtx
      (.fileLines [(("dup:").data), (("NOP").data), (("dup:").data)] 1)
      mainStart).errors = [] ∧
    lookupS (run 9 emptyCtx
      (.fileLines [(("dup:").data), (("NOP").data), (("dup:").data)] 1)
      mainStart).labels (("dup").data) = some 4 := by
  decide

/-- Label rebinding records no diagnostic: processing a line consisting of
an already-bound label silently rebinds it to the current cursor of the
active section (code cursor in the text section, padded data cursor
otherwise). -/
theorem label_redefinition_silent (fuel : Nat) (ctx : Ctx)
    (line L rest : Str) (σ : AsmState) (v : Int)
    (hparse : splitLabel (trim (line.takeWhile (fun c => c != ';'))) =
      some (L, rest))
    (hrest : trim rest = [])
    (hdef : lookupS σ.labels L = some v) :
    (process_line (fuel + 1) ctx line σ).errors = σ.errors ∧
    lookupS (process_line (fuel + 1) ctx line σ).labels L =
      some (if σ.currentSection = (".text").data then σ.address
        else if σ.dataAddress % 4 ≠ 0 then
          σ.dataAddress + (4 - σ.dataAddress % 4)
        else σ.dataAddress) := by
  have hne : trim (line.takeWhile (fun c => c != ';')) ≠ [] := by
    intro he
    rw [he] at hparse
    simp [splitLabel] at hparse
  simp only [process_line, run, if_neg hne, hparse, hrest, if_pos rfl,
    bindLabel]
  by_cases hsec : σ.currentSection = (".text").data
  · rw [if_pos hsec, if_pos hsec]
    exact ⟨rfl, lookupS_updateS_self σ.labels L σ.address⟩
  · rw [if_neg hsec, if_neg hsec]
    by_cases hpad : σ.dataAddress % 4 ≠ 0
    · rw [if_pos hpad, if_pos hpad]
      exact ⟨rfl, lookupS_updateS_self _ _ _⟩
    · rw [if_neg hpad, if_neg hpad]
      exact ⟨rfl, lookupS_updateS_self _ _ _⟩

/-- The directive dispatcher routes a lower-cased `.equ`/`.set` name to the
`.equ`/`.set` branch. -/
theorem run_directive_equ (fuel : Nat) (ctx : Ctx) (dname args : Str)
    (σ : AsmState)
    (hd : List.map Char.toLower dname = (".equ").data ∨
      List.map Char.toLower dname = (".set").data) :
    run (fuel + 1) ctx (.directive dname args) σ =
      dirEqu (List.map Char.toLower dname) args σ := by
  rw [run]
  simp only []
  rcases hd with hd | hd <;>
    simp +decide [hd, textSection, dataSection]

/-- Redefinition through `.equ`/`.set` records no diagnostic: with a
well-formed argument list, a valid symbol name that is already bound, and a
value token that parses cleanly, the directive silently rebinds the name to
the new value. -/
theorem equ_redefinition_silent (fuel : Nat) (ctx : Ctx)
    (dname args namePart valuePart : Str) (σ : AsmState) (v w : Int)
    (hd : List.map Char.toLower dname = (".equ").data ∨
      List.map Char.toLower dname = (".set").data)
    (hsplit : splitOnceComma args = [namePart, valuePart])
    (hident : isIdent (trim namePart) = true)
    (hdef : lookupS σ.labels (trim namePart) = some v)
    (hpv : parse_immediate (trim valuePart) false σ = (w, σ)) :
    (run (fuel + 1) ctx (.directive dname args) σ).errors = σ.errors ∧
    lookupS (run (fuel + 1) ctx (.directive dname args) σ).labels
      (trim namePart) = some w := by
  rw [run_directive_equ fuel ctx dname args σ hd]
  simp only [dirEqu, hsplit]
  rw [if_neg (by simp [hident])]
  simp only [hpv]
  exact ⟨trivial, lookupS_updateS_self _ _ _⟩

/-- C3 (amended): no second definition of a symbol is rejected or even
reported — both definition forms silently overwrite.  Processing a line
consisting of an already-bound label records no diagnostic and rebinds the
label to the current cursor of the active section (code cursor in the text
section, padded data cursor in the data section); and dispatching a
`.equ`/`.set` directive whose valid, cleanly parsing symbol name is already
bound records no diagnostic and rebinds the name to the new value. -/
theorem c3_silent_redefinition :
    (∀ (fuel : Nat) (ctx : Ctx) (line L rest : Str) (σ : AsmState) (v : Int),
      splitLabel (trim (line.takeWhile (fun c => c != ';'))) =
        some (L, rest) →
      trim rest = [] →
      lookupS σ.labels L = some v →
      (process_line (fuel + 1) ctx line σ).errors = σ.errors ∧
      lookupS (process_line (fuel + 1) ctx line σ).labels L =
        some (if σ.currentSection = (".text").data then σ.address
          else if σ.dataAddress % 4 ≠ 0 then
            σ.dataAddress + (4 - σ.dataAddress % 4)
          else σ.dataAddress)) ∧
    (∀ (fuel : Nat) (ctx : Ctx) (dname args namePart valuePart : Str)
      (σ : AsmState) (v w : Int),
      (List.map Char.toLower dname = (".equ").data ∨
        List.map Char.toLower dname = (".set").data) →
      splitOnceComma args = [namePart, valuePart] →
      isIdent (trim namePart) = true →
      lookupS σ.labels (trim namePart) = some v →
      parse_immediate (trim valuePart) false σ = (w, σ) →
      (run (fuel + 1) ctx (.directive dname args) σ).errors = σ.errors ∧
      lookupS (run (fuel + 1) ctx (.directive dname args) σ).labels
        (trim namePart) = some w) :=
  ⟨label_redefinition_silent, equ_redefinition_silent⟩

/-- Witness for the amended C3: rebinding the already bound label `dup` by a
second `dup:` line, and rebinding it again through `.equ dup, 7`. -/
theorem c3_silent_redefinition_witness :
    ((process_line 3 emptyCtx (("dup:").data) dupState).errors =
        dupState.errors ∧
      lookupS (process_line 3 emptyCtx (("dup:").data) dupState).labels
        (("dup").data) =
        some (if dupState.currentSection = (".text").data then
            dupState.address
          else if dupState.dataAddress % 4 ≠ 0 then
            dupState.dataAddress + (4 - dupState.dataAddress % 4)
          else dupState.dataAddress)) ∧
    ((run 3 emptyCtx (.directive ((".equ").data) (("dup, 7").data))
        dupState).errors = dupState.errors ∧
      lookupS (run 3 emptyCtx (.directive ((".equ").data) (("dup, 7").data))
        dupState).labels (trim (("dup").data)) = some 7) :=
  ⟨c3_silent_redefinition.1 2 emptyCtx (("dup:").data) (("dup").data) []
      dupState 0 (by decide) (by decide) (by decide),
   c3_silent_redefinition.2 2 emptyCtx ((".equ").data) (("dup, 7").data)
      (("dup").data) ((" 7").data) dupState 0 7 (by decide) (by decide)
      (by decide) (by decide) (by rfl)⟩

/-- C4 counterexample: `OUT #1, R2` passes format validation (OUT accepts an
IMM destination), yet the encoder dispatch rejects it — no word is emitted
and an unsupported-addressing-mode diagnostic is recorded instead. -/
theorem c4_out_rejected_counterexample :
    (validate (("OUT").data) [(modeIMM, 0, 0, 1), (modeREG, 2, 0, 0)]
      [modeIMM, modeREG]).1 = true ∧
    (process_instruction_ops (("OUT").data)
      [(("#1").data), ((" R2").data)] mainStart).instructions = [] ∧
    (process_instruction_ops (("OUT").data)
      [(("#1").data), ((" R2").data)] mainStart).errors =
      [(("main.s:0: Unsupported addressing mode for OUT").data)] := by
  decide

/-- C4 (amended): a validated two-operand non-MOVE instruction is encoded
with mode, reg2 and immediate taken from the source operand and reg1 from
the destination register ONLY when the destination operand has mode REG;
when the destination mode is anything else (e.g. the IMM destination of
`OUT`), the dispatch falls through to an unsupported-addressing-mode
diagnostic and no word is emitted. -/
theorem c4_two_operand_encoding (name s1 s2 : Str) (σ σ1 σ2 : AsmState)
    (op m1 r1 x y m2 rs z imm : Int)
    (hname : name ≠ [])
    (hop : lookupS opcodesTable (name.map Char.toUpper) = some op)
    (hmove : name.map Char.toUpper ≠ ("MOVE").data)
    (ht1 : trim s1 ≠ []) (ht2 : trim s2 ≠ [])
    (hp1 : parse_operand (trim s1) σ = ((m1, r1, x, y), σ1))
    (hp2 : parse_operand (trim s2) σ1 = ((m2, rs, z, imm), σ2))
    (hval : (validate (name.map Char.toUpper)
      [(m1, r1, x, y), (m2, rs, z, imm)] [m1, m2]).1 = true) :
    (m1 = modeREG →
      (process_instruction_ops name [s1, s2] σ).instructions =
        σ2.instructions ++ [encode_instruction op m2 r1 rs imm] ∧
      (process_instruction_ops name [s1, s2] σ).errors = σ2.errors ∧
      (process_instruction_ops name [s1, s2] σ).address = σ2.address + 4) ∧
    (m1 ≠ modeREG →
      process_instruction_ops name [s1, s2] σ =
        addError σ2 ((("Unsupported addressing mode for ").data) ++
          name.map Char.toUpper)) := by
  constructor
  · intro hm1
    subst hm1
    simp only [modeREG] at hp1 hval
    simp only [process_instruction_ops, if_neg hname, hop, opLoop,
      if_neg ht1, hp1, if_neg ht2, hp2, List.nil_append, List.cons_append,
      List.singleton_append]
    simp only [hval, modeIMM, modeMEM, modeREG]
    simp only [show ((1 : Int) = 0 ∧ isIdent (List.dropWhile (fun c => c = '#')
      (trim s1)) = true) = False by simp]
    simp +decide [if_neg hmove]
    split <;> simp [appendInstr, queueRef]
  · intro hm1
    simp only [modeREG] at hm1
    simp only [process_instruction_ops, if_neg hname, hop, opLoop,
      if_neg ht1, hp1, if_neg ht2, hp2, List.nil_append, List.cons_append,
      List.singleton_append]
    simp +decide [hval, modeIMM, modeMEM, modeREG, if_neg hmove, if_neg hm1]

/-- Witness for the amended C4 at `ADD R1, #5`. -/
theorem c4_two_operand_encoding_witness :
    (process_instruction_ops (("ADD").data) [(("R1").data), ((" #5").data)]
      mainStart).instructions =
        mainStart.instructions ++ [encode_instruction 32 0 1 0 5] ∧
    (process_instruction_ops (("ADD").data) [(("R1").data), ((" #5").data)]
      mainStart).errors = mainStart.errors ∧
    (process_instruction_ops (("ADD").data) [(("R1").data), ((" #5").data)]
      mainStart).address = mainStart.address + 4 :=
  (c4_two_operand_encoding (("ADD").data) (("R1").data) ((" #5").data)
    mainStart mainStart mainStart 32 1 1 0 0 0 0 0 5
    (by decide) (by decide) (by decide) (by decide) (by decide)
    (by decide) (by decide) (by decide)).1 (by decide)

/-- C5 counterexample: a fixup against a symbol whose value 74565 does not
fit in 16 bits stores 74565 mod 2^16 = 9029, not the symbol value. -/
theorem c5_truncation_counterexample :
    decodeImm ((resolveRefs [(0, (("far").data), (("imm").data))]
      { mainStart with labels := [((("far").data), 74565)],
                       instructions := [0x61000000] }).instructions.getD 0 0) =
      9029 ∧ ((9029 : Int) ≠ 74565) := by
  refine ⟨by decide, by decide⟩

/-- C5 (amended): for a pending entry (i, s, imm) whose index is hit by no
other entry, when s resolves to v and i is a valid code index, the fixup
pass keeps the opcode, mode and reg1 fields of the word at i and sets its
recombined 16-bit immediate to v mod 2^16 (equal to v itself only when
0 ≤ v < 2^16). -/
theorem c5_fixup_stores_low16 (refs : List (Nat × Str × Str)) (σ : AsmState)
    (i : Nat) (s : Str) (v : Int)
    (hmem : (i, s, (("imm").data)) ∈ refs)
    (huniq : (refs.filter (fun e => e.1 = i)).length = 1)
    (hdef : lookupS σ.labels s = some v)
    (hlt : i < σ.instructions.length) :
    decodeOpcode ((resolveRefs refs σ).instructions.getD i 0) =
      decodeOpcode (σ.instructions.getD i 0) ∧
    decodeMode ((resolveRefs refs σ).instructions.getD i 0) =
      decodeMode (σ.instructions.getD i 0) ∧
    decodeReg1 ((resolveRefs refs σ).instructions.getD i 0) =
      decodeReg1 (σ.instructions.getD i 0) ∧
    (decodeMode (σ.instructions.getD i 0) ∈ immModes →
      decodeImm ((resolveRefs refs σ).instructions.getD i 0) = v % 65536) := by
  induction refs generalizing σ with
  | nil => cases hmem
  | cons e rest ih =>
    obtain ⟨j, s', t'⟩ := e
    by_cases hji : j = i
    · subst hji
      have hrest : ∀ e ∈ rest, e.1 ≠ j := by
        simp [List.filter_cons] at huniq
        intro e he
        obtain ⟨a, b, c⟩ := e
        exact huniq a b c he
      rcases List.mem_cons.mp hmem with heq | hmemr
      · have hs : s' = s := by
          have h2 := congrArg (fun p => p.2.1) heq
          simpa using h2.symm
        have ht : t' = ("imm").data := by
          have h2 := congrArg (fun p => p.2.2) heq
          simpa using h2.symm
        subst hs
        subst ht
        simp only [resolveRefs, hdef, if_true]
        rw [resolveRefs_getD_untouched _ _ _ hrest]
        simp only [getD_set_eq_of_lt _ _ _ hlt]
        exact resolve_word_fields (σ.instructions.getD j 0) v
      · exact absurd rfl (hrest _ hmemr)
    · have hmemr : (i, s, (("imm").data)) ∈ rest := by
        rcases List.mem_cons.mp hmem with heq | h
        · exfalso
          apply hji
          have h2 := congrArg (fun p => p.1) heq
          simpa using h2.symm
        · exact h
      have huniq2 : (rest.filter (fun e => e.1 = i)).length = 1 := by
        simpa [List.filter_cons, hji] using huniq
      simp only [resolveRefs]
      cases hl : lookupS σ.labels s' with
      | some w' =>
        simp only
        by_cases ht : t' = ("imm").data
        · rw [if_pos ht]
          have hres := ih ({ σ with instructions := σ.instructions.set j (encode_instruction (decodeOpcode (σ.instructions.getD j 0)) (decodeMode (σ.instructions.getD j 0)) (decodeReg1 (σ.instructions.getD j 0)) 0 w') }) hmemr huniq2 (by simpa using hdef) (by simpa using hlt)
          simp only at hres
          rw [getD_set_ne _ _ _ _ hji] at hres
          exact hres
        · rw [if_neg ht]
          exact ih _ hmemr huniq2 hdef hlt
      | none =>
        have hres := ih (addError σ ((("Unresolved symbol: ").data) ++ s'))
          hmemr huniq2 (by simpa [addError] using hdef)
          (by simpa [addError] using hlt)
        simpa [addError] using hres

/-- Witness for the amended C5: one pending `JZ` reference to `tgt` = 12. -/
theorem c5_fixup_witness :
    decodeImm ((resolveRefs [(0, (("tgt").data), (("imm").data))]
      fixupState).instructions.getD 0 0) = 12 % 65536 ∧
    decodeOpcode ((resolveRefs [(0, (("tgt").data), (("imm").data))]
      fixupState).instructions.getD 0 0) =
      decodeOpcode (fixupState.instructions.getD 0 0) :=
  ⟨(c5_fixup_stores_low16 [(0, (("tgt").data), (("imm").data))] fixupState 0
      (("tgt").data) 12 (by decide) (by decide) (by decide) (by decide)).2.2.2
      (by decide),
   (c5_fixup_stores_low16 [(0, (("tgt").data), (("imm").data))] fixupState 0
      (("tgt").data) 12 (by decide) (by decide) (by decide) (by decide)).1⟩

/-- C6: when at least one data byte is emitted, the image is at least
0x4000 + |data| bytes long, and every byte in the gap between the end of the
serialized code (4 bytes per word) and 0x4000 is zero. -/
theorem c6_segment_boundary (instructions data : List Int) (hd : data ≠ []) :
    16384 + data.length ≤ (buildBinary instructions data).length ∧
    ∀ j : Nat, 4 * instructions.length ≤ j → j < 16384 →
      (buildBinary instructions data).getD j 0 = 0 := by
  have hlen := codeBytes_length instructions
  rw [buildBinary]
  simp only [if_neg hd]
  set code := (instructions.map wordBytes).flatten with hcode
  by_cases h : (code.length : Int) < DATA_SEGMENT_BASE
  · have hlt : code.length < 16384 := by
      simpa [DATA_SEGMENT_BASE] using h
    rw [if_pos h]
    have htn : (DATA_SEGMENT_BASE - (code.length : Int)).toNat =
        16384 - code.length := by
      simp only [DATA_SEGMENT_BASE]
      omega
    constructor
    · simp [htn]
      omega
    · intro j hj1 hj2
      have hj3 : code.length ≤ j := by omega
      rw [List.append_assoc, List.getD_append_right _ _ _ _ hj3,
        List.getD_append _ _ _ _ (by simp [htn]; omega),
        List.getD_eq_getElem _ _ (by simp [htn]; omega)]
      simp
  · rw [if_neg h]
    constructor
    · simp only [List.length_append]
      simp only [DATA_SEGMENT_BASE] at h
      omega
    · intro j hj1 hj2
      simp only [DATA_SEGMENT_BASE] at h
      omega

/-- Witness for C6: one code word, one data byte, gap byte at offset 100. -/
theorem c6_segment_boundary_witness :
    (([72] : List Int) ≠ []) ∧
    16384 + ([72] : List Int).length ≤
      (buildBinary ([0] : List Int) ([72] : List Int)).length ∧
    (buildBinary ([0] : List Int) ([72] : List Int)).getD 100 0 = 0 :=
  ⟨by decide,
   (c6_segment_boundary [0] [72] (by decide)).1,
   (c6_segment_boundary [0] [72] (by decide)).2 100 (by decide) (by decide)⟩

/-- C7: label values are 4-byte aligned — binding a label while the code
cursor is aligned records an aligned value in the symbol table (the data
cursor is rounded up to a 4-byte boundary before binding), and every step of
the driver preserves 4-byte alignment of the code cursor, so the invariant
holds throughout a run started at the aligned initial address. -/
theorem c7_label_alignment :
    (∀ (L : Str) (σ : AsmState), σ.address % 4 = 0 →
      ∃ v, lookupS (bindLabel L σ).labels L = some v ∧ v % 4 = 0) ∧
    (∀ (fuel : Nat) (ctx : Ctx) (job : Job) (σ : AsmState),
      σ.address % 4 = 0 → (run fuel ctx job σ).address % 4 = 0) :=
  ⟨bindLabel_aligned, run_addr_mod⟩

/-- Witness for C7: a label bound at the initial state, and one driver step
on a `NOP` line. -/
theorem c7_label_alignment_witness :
    (∃ v, lookupS (bindLabel (("L").data) mainStart).labels (("L").data) =
      some v ∧ v % 4 = 0) ∧
    (run 3 emptyCtx (.line (("NOP").data)) mainStart).address % 4 = 0 :=
  ⟨c7_label_alignment.1 (("L").data) mainStart (by decide),
   c7_label_alignment.2 3 emptyCtx (.line (("NOP").data)) mainStart
     (by decide)⟩

/-- C8: when the absolute path of an included file is already on the include
stack, the include driver records exactly the circular-inclusion diagnostic
and changes nothing else — it returns without processing any line of that
file, so the recursion stops. -/
theorem c8_circular_include (fuel : Nat) (ctx : Ctx) (fname : Str)
    (σ : AsmState)
    (h : memS (ctx.abspath fname) σ.includedFiles = true) :
    include_file (fuel + 1) ctx fname σ =
      addError σ ((("Circular inclusion detected: ").data) ++ fname) := by
  simp only [include_file, run, h, if_pos]

/-- Witness for C8: an included file that re-includes the top-level input,
whose path seeds the stack. -/
theorem c8_circular_include_witness :
    memS (emptyCtx.abspath (("main.s").data)) mainStart.includedFiles = true ∧
    include_file 5 emptyCtx (("main.s").data) mainStart =
      addError mainStart
        ((("Circular inclusion detected: ").data) ++ (("main.s").data)) :=
  ⟨by decide, c8_circular_include 4 emptyCtx (("main.s").data) mainStart
    (by decide)⟩

/-- C9 counterexample: assembling `INC [s+4]` then `s:` leaves the pending
entry (0, s, imm) although the rejected instruction emitted no word — the
code vector is empty, so the recorded index 0 is not a valid index into it
and points at no word of the referencing instruction. -/
theorem c9_dangling_reference_counterexample :
    (run 9 emptyCtx (.fileLines [(("INC [s+4]").data), (("s:").data)] 1)
      mainStart).unresolved = [(0, (("s").data), (("imm").data))] ∧
    (run 9 emptyCtx (.fileLines [(("INC [s+4]").data), (("s:").data)] 1)
      mainStart).instructions = [] ∧
    lookupS (run 9 emptyCtx (.fileLines [(("INC [s+4]").data), (("s:").data)] 1)
      mainStart).labels (("s").data) = some 0 ∧
    ¬ (0 < (run 9 emptyCtx (.fileLines [(("INC [s+4]").data), (("s:").data)] 1)
      mainStart).instructions.length) := by
  decide

/-- C9 (amended): a `[sym+k]` operand of an undefined symbol queues a fixup
keyed by the current code-vector length DURING operand parsing; when format
validation then rejects the instruction, the diagnostic state still carries
that pending entry while no word was appended — the queued index survives
the rejection and is left pointing past the emitted words. -/
theorem c9_rejected_instruction_queues_fixup (σ : AsmState)
    (hs : lookupS σ.labels (("s").data) = none) :
    process_instruction_ops (("INC").data) [(("[s+4]").data)] σ =
      addError
        { σ with unresolved :=
            σ.unresolved ++ [(σ.instructions.length, (("s").data), (("imm").data))] }
        ((("INC expects operand with addressing mode(s): REG, got MEM").data)) := by
  have e1 : trim (("[s+4]").data) = ("[s+4]").data := by decide
  have e2 : bracketInner (("[s+4]").data) = some (("s+4").data) := by decide
  have e3 : isIdent (trim (("s+4").data)) = false := by decide
  have ev : validate (("INC").data) [((2 : Int), (0 : Int), (0 : Int), (4 : Int))] [(2 : Int)] =
      (false, (("INC expects operand with addressing mode(s): REG, got MEM").data)) := by
    decide
  have eo : lookupS opcodesTable (("INC").data) = some 0x25 := by decide
  simp +decide [process_instruction_ops, opLoop, e1, e2, e3,
    parse_operand_symPlus σ hs, ev, eo, modeIMM, modeMEM]

/-- Witness for the amended C9 at the initial state. -/
theorem c9_rejected_instruction_witness :
    process_instruction_ops (("INC").data) [(("[s+4]").data)] mainStart =
      addError
        { mainStart with unresolved :=
            mainStart.unresolved ++
              [(mainStart.instructions.length, (("s").data), (("imm").data))] }
        ((("INC expects operand with addressing mode(s): REG, got MEM").data)) :=
  c9_rejected_instruction_queues_fixup mainStart (by decide)

/-- C10: for arbitrary integer inputs the encoder returns a value in
[0, 2^32); in the immediate-split modes the stored 16-bit immediate equals
the given immediate modulo 2^16, in all other modes the stored immediate is
reduced modulo 2^12 and reg2 modulo 2^4 — truncation is silent, the encoder
has no diagnostic path. -/
theorem c10_encoder_truncates_silently (opcode mode reg1 reg2 immediate : Int) :
    (0 ≤ encode_instruction opcode mode reg1 reg2 immediate ∧
      encode_instruction opcode mode reg1 reg2 immediate < 4294967296) ∧
    (mode % 16 ∈ immModes →
      decodeReg2 (encode_instruction opcode mode reg1 reg2 immediate) * 4096 +
        decodeImm12 (encode_instruction opcode mode reg1 reg2 immediate) =
          immediate % 65536) ∧
    (mode % 16 ∉ immModes →
      decodeImm12 (encode_instruction opcode mode reg1 reg2 immediate) =
          immediate % 4096 ∧
      decodeReg2 (encode_instruction opcode mode reg1 reg2 immediate) =
          reg2 % 16) := by
  by_cases h : mode % 16 ∈ immModes
  · rw [encode_instruction_imm _ _ _ _ _ h]
    refine ⟨⟨by omega, by omega⟩, fun _ => ?_, fun hn => absurd h hn⟩
    simp only [decodeReg2, decodeImm12]
    omega
  · rw [encode_instruction_reg _ _ _ _ _ h]
    refine ⟨⟨by omega, by omega⟩, fun hm => absurd hm h, fun _ => ⟨?_, ?_⟩⟩ <;>
      · simp only [decodeReg2, decodeImm12]
        omega

/-- Witness for C10 at out-of-range inputs (negative opcode, wide
immediate). -/
theorem c10_encoder_witness :
    (0 ≤ encode_instruction (-7) 0 23 99 999999 ∧
      encode_instruction (-7) 0 23 99 999999 < 4294967296) ∧
    decodeReg2 (encode_instruction (-7) 0 23 99 999999) * 4096 +
      decodeImm12 (encode_instruction (-7) 0 23 99 999999) = 999999 % 65536 :=
  ⟨(c10_encoder_truncates_silently (-7) 0 23 99 999999).1,
   (c10_encoder_truncates_silently (-7) 0 23 99 999999).2.1 (by decide)⟩
